import Mathlib

/-! # fast-lzma2 : single-context, streaming and multithreaded decompression (`fl2_decompress.c`)

A shallow embedding of `FL2_decompressDCtx`, `FL2_createDStream`,
`FL2_initDStream` and `FL2_decompressStream`, and of the functions of the
multithreaded coordinator, `FL2_Lzma2DecMt_Create` to `FL2_LoadInputMt`.

* `size_t` values are natural numbers; every `size_t` operation of the source
  is reduced modulo `2 ^ w`, where `w` is the width of `size_t`.
* A C buffer is the list of the bytes readable from its pointer together with
  the declared size the caller passes.  A read that leaves the list, and a
  dereference of a null digest handle, have no defined behaviour: the embedded
  functions return `none` there.
* The chunk decoder (`lzma2_dec.h`), the error helpers (`fl2_internal.h`) and
  the hash function (`xxhash.h`) are not part of the translation unit; they are
  the fields of `Externals`.  The macro `CHECK_F(e)` is read as: evaluate `e`,
  and return its value from the enclosing function when `FL2_isError` holds of it.
* Each call of `FL2_decompressStream` also records, in order, the calls it makes
  to those collaborators (`Event`), so that statements about what the decoder
  reported or what the digest was fed can be made about the calls themselves.
-/

namespace FL2

/-! ## Data model -/

/-- The type `BYTE` of `mem.h`: an octet. -/
abbrev BYTE := Fin 256

/-- The C enumeration `DecoderStage`. -/
inductive DecoderStage where
  | FL2DEC_STAGE_INIT
  | FL2DEC_STAGE_DECOMP
  | FL2DEC_STAGE_HASH
  | FL2DEC_STAGE_FINISHED
deriving DecidableEq, Repr

/-- The finish policy handed to the chunk decoder. -/
inductive ELzmaFinishMode where
  | LZMA_FINISH_ANY
  | LZMA_FINISH_END
deriving DecidableEq, Repr

/-- Modelled from the spec: the constant `FL2_PROP_HASH_BIT` of `fl2_internal.h` (absent
from the sources); the checksum is "present iff the high bit of property_byte is set". -/
def FL2_PROP_HASH_BIT : Nat := 7

/-- Modelled from the spec: the constant `XXHASH_SIZEOF` of `fl2_internal.h` (absent from
the sources), the width of the "4-byte canonical checksum". -/
def XXHASH_SIZEOF : Nat := 4

/-- Modelled from the spec: the digest accumulator of `xxhash.h` (absent from the
sources), an "incremental 32-bit checksum over raw decompressed bytes".  Its
state is the seed given at the last reset and the bytes fed since then. -/
structure XXH32_state_t where
  seed : Nat
  fed : List BYTE
deriving DecidableEq, Repr

/-- Modelled from the spec: `reset` of the digest contract forgets everything fed
so far and installs the seed. -/
def XXH32_reset (_st : XXH32_state_t) (seed : Nat) : XXH32_state_t :=
  { seed := seed, fed := [] }

/-- Modelled from the spec: `update(bytes)` of the digest contract appends the
bytes to what the accumulator has observed. -/
def XXH32_update (st : XXH32_state_t) (bytes : List BYTE) : XXH32_state_t :=
  { st with fed := st.fed ++ bytes }

/-- What `FLzma2Dec_DecodeToBuf` leaves behind: its status or error code, the
decoder state, the memory at `dest`, and the updated `*destLen` and `*srcLen`. -/
structure BufResult (D : Type) where
  res : Nat
  dec : D
  dest : List BYTE
  destLen : Nat
  srcLen : Nat

/-- What `FLzma2Dec_DecodeToDic` leaves behind: its status or error code, the
decoder state, the memory of the dictionary and the updated `*srcLen`. -/
structure DicResult (D : Type) where
  res : Nat
  dec : D
  dic : List BYTE
  srcLen : Nat

/-- Everything `fl2_decompress.c` uses and does not define.  `D` is the state of
the chunk decoder (`CLzma2Dec`). -/
structure Externals (D : Type) where
  /-- width of `size_t` in bits -/
  w : Nat
  /-- the function `FL2_isError` -/
  FL2_isError : Nat → Bool
  /-- the value `FL2_ERROR(memory_allocation)` -/
  error_memory_allocation : Nat
  /-- the value `FL2_ERROR(srcSize_wrong)` -/
  error_srcSize_wrong : Nat
  /-- the value `FL2_ERROR(checksum_wrong)` -/
  error_checksum_wrong : Nat
  /-- the constant `FL2_LZMA_PROP_MASK` -/
  FL2_LZMA_PROP_MASK : Nat
  /-- the status `LZMA_STATUS_FINISHED_WITH_MARK` -/
  LZMA_STATUS_FINISHED_WITH_MARK : Nat
  /-- the status `LZMA_STATUS_NEEDS_MORE_INPUT` -/
  LZMA_STATUS_NEEDS_MORE_INPUT : Nat
  /-- the decoder state `LzmaDec_Construct` leaves in fresh memory -/
  LzmaDec_Construct : D
  /-- the field `dicPos` of the decoder state -/
  dicPos : D → Nat
  /-- the call `FLzma2Dec_Init(dec, prop, dic, dicBufSize)`: the code returned and the new
  state; `dic` is `none` for a null pointer -/
  FLzma2Dec_Init : D → Nat → Option (List BYTE) → Nat → Nat × D
  /-- the call `FLzma2Dec_DecodeToDic(dec, dicLimit, src, &srcLen, finishMode)`; the second
  argument is the memory of the dictionary the decoder was initialised on -/
  FLzma2Dec_DecodeToDic : D → List BYTE → Nat → List BYTE → Nat → ELzmaFinishMode → DicResult D
  /-- the call `FLzma2Dec_DecodeToBuf(dec, dest, &destLen, src, &srcLen, finishMode)` -/
  FLzma2Dec_DecodeToBuf : D → List BYTE → Nat → List BYTE → Nat → ELzmaFinishMode → BufResult D
  /-- the hash `XXH32(input, seed)` over the bytes of `input` -/
  XXH32 : List BYTE → Nat → Nat
  /-- the function `XXH32_hashFromCanonical` on the four bytes of a canonical digest -/
  XXH32_hashFromCanonical : List BYTE → Nat
  /-- the call `XXH32_createState()`: `none` when the allocation fails -/
  XXH32_createState : Option XXH32_state_t

/-- Modelled from the spec: `digest()` of the digest contract is the one-shot hash
of the bytes fed since the last reset, under the seed of that reset. -/
def XXH32_digest {D : Type} (env : Externals D) (st : XXH32_state_t) : Nat :=
  env.XXH32 st.fed st.seed

/-- Subtraction `a - b` on `size_t`. -/
def size_sub (w a b : Nat) : Nat := (a + (2 ^ w - b % 2 ^ w)) % 2 ^ w

/-- Addition `a + b` on `size_t`. -/
def size_add (w a b : Nat) : Nat := (a + b) % 2 ^ w

/-- The `n` bytes at offset `pos` of a buffer, when they all lie inside it. -/
def readBytes (mem : List BYTE) (pos n : Nat) : Option (List BYTE) :=
  if pos + n ≤ mem.length then some ((mem.drop pos).take n) else none

/-- The structure `struct FL2_DStream_s` without the coordinator handle `decmt`, which the
single-context path never reads. -/
structure FL2_DStream (D : Type) where
  dec : D
  xxh : Option XXH32_state_t
  stage : DecoderStage
  do_hash : Nat

/-- The structure `FL2_outBuffer`: `dst` holds the bytes of the caller buffer. -/
structure FL2_outBuffer where
  dst : List BYTE
  size : Nat
  pos : Nat
deriving DecidableEq, Repr

/-- The structure `FL2_inBuffer`: `src` holds the bytes of the caller buffer. -/
structure FL2_inBuffer where
  src : List BYTE
  size : Nat
  pos : Nat
deriving DecidableEq, Repr

/-- One call made to an external collaborator, with what it returned. -/
inductive Event where
  | decInit (prop code : Nat)
  | createState (ok : Bool)
  | reset
  | decode (res destLen srcLen : Nat)
  | update (bytes : List BYTE)
  | compare (stored digest : Nat)
deriving DecidableEq, Repr

/-- The variables of a running `FL2_decompressStream` call: the three objects it
mutates through its pointers and the external calls made so far. -/
structure StreamCall (D : Type) where
  fds : FL2_DStream D
  output : FL2_outBuffer
  input : FL2_inBuffer
  events : List Event

/-- Control after one stage block: a `return` statement was executed, or control
falls through to the next statement. -/
inductive Flow (D : Type) where
  | ret (code : Nat) (c : StreamCall D)
  | next (c : StreamCall D)

/-- The outcome of `FL2_decompressStream`: the returned `size_t` and the objects
behind the three pointers. -/
structure StreamResult (D : Type) where
  ret : Nat
  fds : FL2_DStream D
  output : FL2_outBuffer
  input : FL2_inBuffer
  events : List Event

/-! ## Stream lifecycle -/

/-- The function `FL2_createDStream`; `malloc` tells whether the allocation succeeded. -/
def FL2_createDStream {D : Type} (env : Externals D) (malloc : Bool) : Option (FL2_DStream D) :=
  if malloc then
    some { dec := env.LzmaDec_Construct, stage := .FL2DEC_STAGE_INIT, xxh := none, do_hash := 0 }
  else none

/-- The function `FL2_initDStream`: returns 0 and the updated stream. -/
def FL2_initDStream {D : Type} (fds : FL2_DStream D) : Nat × FL2_DStream D :=
  (0, { fds with stage := .FL2DEC_STAGE_INIT })

/-! ## `FL2_decompressStream` -/

/-- The checksum flag `prop >> FL2_PROP_HASH_BIT`, stored in a `BYTE`. -/
def propHash (b : BYTE) : Nat := (b.val >>> FL2_PROP_HASH_BIT) % 256

/-- The value of `prop` after `prop &= FL2_LZMA_PROP_MASK`. -/
def propLzma {D : Type} (env : Externals D) (b : BYTE) : Nat :=
  (b.val &&& env.FL2_LZMA_PROP_MASK) % 256

/-- The block `if (fds->stage == FL2DEC_STAGE_INIT) { ... }`. -/
def stageInit {D : Type} (env : Externals D) (c : StreamCall D) : Option (Flow D) :=
  if c.fds.stage = .FL2DEC_STAGE_INIT then
    match c.input.src.get? c.input.pos with
    | none => none
    | some b =>
      let input := { c.input with pos := size_add env.w c.input.pos 1 }
      let do_hash := propHash b
      let prop := propLzma env b
      let i := env.FLzma2Dec_Init c.fds.dec prop none 0
      let fds := { c.fds with do_hash := do_hash, dec := i.2 }
      let ev := c.events ++ [Event.decInit prop i.1]
      if env.FL2_isError i.1 then
        some (.ret i.1 { fds := fds, output := c.output, input := input, events := ev })
      else if do_hash ≠ 0 then
        match fds.xxh with
        | some x =>
          some (.next { fds := { fds with xxh := some (XXH32_reset x 0), stage := .FL2DEC_STAGE_DECOMP },
                        output := c.output, input := input, events := ev ++ [Event.reset] })
        | none =>
          match env.XXH32_createState with
          | none =>
            some (.ret env.error_memory_allocation
              { fds := fds, output := c.output, input := input,
                events := ev ++ [Event.createState false] })
          | some x =>
            some (.next { fds := { fds with xxh := some (XXH32_reset x 0), stage := .FL2DEC_STAGE_DECOMP },
                          output := c.output, input := input,
                          events := ev ++ [Event.createState true, Event.reset] })
      else
        some (.next { fds := { fds with stage := .FL2DEC_STAGE_DECOMP },
                      output := c.output, input := input, events := ev })
  else some (.next c)

/-- The statement `if(fds->do_hash) XXH32_update(fds->xxh, dst + pos, destSize);`
on the output memory as the decoder left it. -/
def hashUpdate {D : Type} (fds : FL2_DStream D) (dst : List BYTE) (pos destSize : Nat) :
    Option (FL2_DStream D × List Event) :=
  if fds.do_hash ≠ 0 then
    match fds.xxh, readBytes dst pos destSize with
    | some x, some bytes => some ({ fds with xxh := some (XXH32_update x bytes) }, [Event.update bytes])
    | _, _ => none
  else some (fds, [])

/-- The call `FLzma2Dec_DecodeToBuf(&fds->dec, dst + output->pos, &destSize,
src + input->pos, &srcSize, LZMA_FINISH_ANY)` of the stage `Decomp`, with
`destSize = output->size - output->pos` and `srcSize = input->size - input->pos`. -/
def streamDecode {D : Type} (env : Externals D) (c : StreamCall D) : BufResult D :=
  env.FLzma2Dec_DecodeToBuf c.fds.dec (c.output.dst.drop c.output.pos)
    (size_sub env.w c.output.size c.output.pos)
    (c.input.src.drop c.input.pos) (size_sub env.w c.input.size c.input.pos) .LZMA_FINISH_ANY

/-- The block `if (fds->stage == FL2DEC_STAGE_DECOMP) { ... }`. -/
def stageDecomp {D : Type} (env : Externals D) (c : StreamCall D) : Option (Flow D) :=
  if c.fds.stage = .FL2DEC_STAGE_DECOMP then
    let r := streamDecode env c
    let dst := c.output.dst.take c.output.pos ++ r.dest
    let ev := c.events ++ [Event.decode r.res r.destLen r.srcLen]
    match hashUpdate { c.fds with dec := r.dec } dst c.output.pos r.destLen with
    | none => none
    | some (fds, evh) =>
      let output := { c.output with dst := dst, pos := size_add env.w c.output.pos r.destLen }
      let input := { c.input with pos := size_add env.w c.input.pos r.srcLen }
      if env.FL2_isError r.res then
        some (.ret r.res { fds := fds, output := output, input := input, events := ev ++ evh })
      else if r.res = env.LZMA_STATUS_FINISHED_WITH_MARK then
        some (.next { fds := { fds with stage :=
                        if fds.do_hash ≠ 0 then .FL2DEC_STAGE_HASH else .FL2DEC_STAGE_FINISHED },
                      output := output, input := input, events := ev ++ evh })
      else
        some (.next { fds := fds, output := output, input := input, events := ev ++ evh })
  else some (.next c)

/-- The block `if (fds->stage == FL2DEC_STAGE_HASH) { ... }`. -/
def stageHash {D : Type} (env : Externals D) (c : StreamCall D) : Option (Flow D) :=
  if c.fds.stage = .FL2DEC_STAGE_HASH then
    if size_sub env.w c.input.size c.input.pos < XXHASH_SIZEOF then
      some (.ret 1 c)
    else
      match readBytes c.input.src c.input.pos XXHASH_SIZEOF, c.fds.xxh with
      | some canonical, some x =>
        let hash := env.XXH32_hashFromCanonical canonical
        let ev := c.events ++ [Event.compare hash (XXH32_digest env x)]
        if hash ≠ XXH32_digest env x then
          some (.ret env.error_checksum_wrong { c with events := ev })
        else
          some (.next { c with fds := { c.fds with stage := .FL2DEC_STAGE_FINISHED }, events := ev })
      | _, _ => none
  else some (.next c)

/-- The final statement `return fds->stage != FL2DEC_STAGE_FINISHED;`. -/
def stageReturn {D : Type} (c : StreamCall D) : StreamResult D :=
  { ret := if c.fds.stage = .FL2DEC_STAGE_FINISHED then 0 else 1,
    fds := c.fds, output := c.output, input := c.input, events := c.events }

/-- Runs the next block unless a `return` was already executed. -/
def Flow.andThen {D : Type} (f : Option (Flow D)) (g : StreamCall D → Option (Flow D)) :
    Option (Flow D) :=
  match f with
  | none => none
  | some (.ret code c) => some (.ret code c)
  | some (.next c) => g c

/-- Leaves the function: with the code of the `return` that was executed, or
through the final statement. -/
def Flow.finish {D : Type} (f : Option (Flow D)) : Option (StreamResult D) :=
  match f with
  | none => none
  | some (.ret code c) =>
    some { ret := code, fds := c.fds, output := c.output, input := c.input, events := c.events }
  | some (.next c) => some (stageReturn c)

/-- The function `FL2_decompressStream(fds, output, input)`.  The result carries the returned
value, the stream and both cursors as the call leaves them, and the external
calls it made, in order. -/
def FL2_decompressStream {D : Type} (env : Externals D) (fds : FL2_DStream D)
    (output : FL2_outBuffer) (input : FL2_inBuffer) : Option (StreamResult D) :=
  let c : StreamCall D := { fds := fds, output := output, input := input, events := [] }
  if input.pos < input.size then
    Flow.finish (Flow.andThen (Flow.andThen (stageInit env c) (stageDecomp env)) (stageHash env))
  else
    some (stageReturn c)

/-- The error helpers behave as `fl2_internal.h` intends: every `FL2_ERROR(...)`
used here is recognised by `FL2_isError`, and neither the values 0 and 1 nor the
two decoder statuses the code tests are. -/
structure Externals.WF {D : Type} (env : Externals D) : Prop where
  err_alloc : env.FL2_isError env.error_memory_allocation = true
  err_size : env.FL2_isError env.error_srcSize_wrong = true
  err_sum : env.FL2_isError env.error_checksum_wrong = true
  ok_zero : env.FL2_isError 0 = false
  ok_one : env.FL2_isError 1 = false
  ok_mark : env.FL2_isError env.LZMA_STATUS_FINISHED_WITH_MARK = false
  ok_more : env.FL2_isError env.LZMA_STATUS_NEEDS_MORE_INPUT = false
  mark_ne_more : env.LZMA_STATUS_FINISHED_WITH_MARK ≠ env.LZMA_STATUS_NEEDS_MORE_INPUT

/-! ## `FL2_decompressDCtx` -/

/-- The outcome of `FL2_decompressDCtx`: the returned `size_t`, the decoder
context and the memory of `dst`. -/
structure DCtxResult (D : Type) where
  ret : Nat
  dctx : D
  dst : List BYTE

/-- The call `FLzma2Dec_Init(dctx, prop, dst, dstCapacity)` of `FL2_decompressDCtx`. -/
def dctxInit {D : Type} (env : Externals D) (dctx : D) (dst : List BYTE) (dstCapacity : Nat)
    (b : BYTE) : Nat × D :=
  env.FLzma2Dec_Init dctx (propLzma env b) (some dst) dstCapacity

/-- The call `FLzma2Dec_DecodeToDic(dctx, dstCapacity, srcBuf, &srcPos, LZMA_FINISH_END)`
of `FL2_decompressDCtx`, made on the state `FLzma2Dec_Init` left, with
`srcBuf = src + 1` and `srcPos = srcSize - 1`. -/
def dctxDecode {D : Type} (env : Externals D) (dctx : D) (dst : List BYTE) (dstCapacity : Nat)
    (src : List BYTE) (srcSize : Nat) (b : BYTE) : DicResult D :=
  env.FLzma2Dec_DecodeToDic (dctxInit env dctx dst dstCapacity b).2 dst dstCapacity
    (src.drop 1) (size_sub env.w srcSize 1) .LZMA_FINISH_END

/-- The function `FL2_decompressDCtx(dctx, dst, dstCapacity, src, srcSize)`. -/
def FL2_decompressDCtx {D : Type} (env : Externals D) (dctx : D) (dst : List BYTE)
    (dstCapacity : Nat) (src : List BYTE) (srcSize : Nat) : Option (DCtxResult D) :=
  match src.get? 0 with
  | none => none
  | some b =>
    let do_hash := propHash b
    let srcBuf := src.drop 1
    let srcEnd := size_sub env.w srcSize 1
    let i := dctxInit env dctx dst dstCapacity b
    if env.FL2_isError i.1 then
      some { ret := i.1, dctx := i.2, dst := dst }
    else
      let dicPos0 := env.dicPos i.2
      let r := dctxDecode env dctx dst dstCapacity src srcSize b
      if env.FL2_isError r.res then
        some { ret := r.res, dctx := r.dec, dst := r.dic }
      else if r.res = env.LZMA_STATUS_NEEDS_MORE_INPUT then
        some { ret := env.error_srcSize_wrong, dctx := r.dec, dst := r.dic }
      else
        let dicPos := size_sub env.w (env.dicPos r.dec) dicPos0
        if do_hash ≠ 0 then
          if size_sub env.w srcEnd r.srcLen < XXHASH_SIZEOF then
            some { ret := env.error_srcSize_wrong, dctx := r.dec, dst := r.dic }
          else
            match readBytes srcBuf r.srcLen XXHASH_SIZEOF, readBytes r.dic 0 dicPos with
            | some canonical, some data =>
              if env.XXH32_hashFromCanonical canonical ≠ env.XXH32 data 0 then
                some { ret := env.error_checksum_wrong, dctx := r.dec, dst := r.dic }
              else
                some { ret := dicPos, dctx := r.dec, dst := r.dic }
            | _, _ => none
        else
          some { ret := dicPos, dctx := r.dec, dst := r.dic }

/-! ## Sequences of calls -/

/-- Successive `FL2_decompressStream` calls on one stream, each with the cursor pair
the caller supplies for it; the results of the calls in order, or `none` as soon
as one call has no defined behaviour. -/
def runStream {D : Type} (env : Externals D) :
    FL2_DStream D → List (FL2_outBuffer × FL2_inBuffer) → Option (List (StreamResult D))
  | _, [] => some []
  | fds, call :: rest =>
    match FL2_decompressStream env fds call.1 call.2 with
    | none => none
    | some r =>
      match runStream env r.fds rest with
      | none => none
      | some rs => some (r :: rs)

/-! ## What a session has observed -/

/-- The call a flow carries. -/
def Flow.call {D : Type} : Flow D → StreamCall D
  | .ret _ c => c
  | .next c => c

/-- Among the external calls `es`, `FLzma2Dec_DecodeToBuf` reported
finished-with-mark. -/
def HasMark {D : Type} (env : Externals D) (es : List Event) : Prop :=
  ∃ destLen srcLen, Event.decode env.LZMA_STATUS_FINISHED_WITH_MARK destLen srcLen ∈ es

/-- Among the external calls `es`, a comparison of the stored checksum with the
digest found them equal. -/
def HasMatch (es : List Event) : Prop :=
  ∃ v, Event.compare v v ∈ es

/-- The external calls made by the first `k + 1` calls of a run. -/
def eventsUpto {D : Type} (rs : List (StreamResult D)) (k : Nat) : List Event :=
  ((rs.take (k + 1)).map fun r => r.events).flatten

/-- What the stage tells about the external calls `es` of the session so far. -/
def SessionInv {D : Type} (env : Externals D) (es : List Event) (fds : FL2_DStream D) : Prop :=
  (fds.stage = .FL2DEC_STAGE_HASH → HasMark env es ∧ fds.do_hash ≠ 0) ∧
  (fds.stage = .FL2DEC_STAGE_FINISHED →
    HasMark env es ∧ (fds.do_hash ≠ 0 → HasMatch es))

/-! ## What a session has written -/

/-- The bytes `output[pos_before, pos_after)` of a call state, `before` being the
output cursor the caller passed in. -/
def writtenCall {D : Type} (before : FL2_outBuffer) (c : StreamCall D) : List BYTE :=
  (c.output.dst.drop before.pos).take (c.output.pos - before.pos)

/-- The bytes `output[pos_before, pos_after)` one call wrote, `before` being the
output cursor the caller passed in. -/
def written {D : Type} (before : FL2_outBuffer) (r : StreamResult D) : List BYTE :=
  (r.output.dst.drop before.pos).take (r.output.pos - before.pos)

/-- The bytes the calls of a run wrote to their output buffers, in call order. -/
def runWritten {D : Type} : List (FL2_outBuffer × FL2_inBuffer) → List (StreamResult D) → List BYTE
  | call :: calls, r :: rs => written call.1 r ++ runWritten calls rs
  | _, _ => []

/-- The stream as the last call of a run left it. -/
def runFinal {D : Type} : FL2_DStream D → List (StreamResult D) → FL2_DStream D
  | fds, [] => fds
  | _, r :: rs => runFinal r.fds rs

/-- The digest accumulator agrees with the bytes `acc` the session has written:
nothing is written while the stage is `Init`, and once the property byte is parsed
with the checksum flag set the accumulator holds seed 0 and exactly `acc`. -/
def DigestInv {D : Type} (fds : FL2_DStream D) (acc : List BYTE) : Prop :=
  (fds.stage = .FL2DEC_STAGE_INIT → acc = []) ∧
  (fds.stage ≠ .FL2DEC_STAGE_INIT → fds.do_hash ≠ 0 → fds.xxh = some { seed := 0, fed := acc })

/-- The output cursor lies inside its buffer and its size is a `size_t`. -/
def FL2_outBuffer.WF (w : Nat) (o : FL2_outBuffer) : Prop :=
  o.pos ≤ o.size ∧ o.size < 2 ^ w

/-- The chunk decoder never reports more output than the space it was given. -/
def DecoderBounded {D : Type} (env : Externals D) : Prop :=
  ∀ d dest destLen src srcLen mode,
    (env.FLzma2Dec_DecodeToBuf d dest destLen src srcLen mode).destLen ≤ destLen

/-- The external call changes what the digest accumulator holds. -/
def Event.writesDigest : Event → Bool
  | .update _ => true
  | .reset => true
  | _ => false

/-! ## Comparing two streams -/

/-- What the caller sees of a call: the returned value and both cursors with their
buffers. -/
def StreamResult.observed {D : Type} (r : StreamResult D) : Nat × FL2_outBuffer × FL2_inBuffer :=
  (r.ret, r.output, r.input)

/-- Two streams that no sequence of calls tells apart: they are in the same stage,
and past `Init` they agree on the decoder state, on the checksum flag and, when the
flag is set, on the accumulator; stage `Hash` is entered with the flag set only. -/
def Sim {D : Type} (a b : FL2_DStream D) : Prop :=
  a.stage = b.stage ∧
  (a.stage ≠ .FL2DEC_STAGE_INIT →
    a.dec = b.dec ∧ a.do_hash = b.do_hash ∧ (a.do_hash ≠ 0 → a.xxh = b.xxh) ∧
    (a.stage = .FL2DEC_STAGE_HASH → a.do_hash ≠ 0))

/-- Two call states with indistinguishable streams and equal cursors. -/
def SimCall {D : Type} (ca cb : StreamCall D) : Prop :=
  Sim ca.fds cb.fds ∧ ca.output = cb.output ∧ ca.input = cb.input

/-- Two flows that agree on what happens next and on the value returned. -/
def SimFlow {D : Type} : Option (Flow D) → Option (Flow D) → Prop
  | none, none => True
  | some (.ret ka ca), some (.ret kb cb) => ka = kb ∧ SimCall ca cb
  | some (.next ca), some (.next cb) => SimCall ca cb
  | _, _ => False

/-- Two call outcomes the caller cannot tell apart, leaving indistinguishable streams. -/
def SimResult {D : Type} : Option (StreamResult D) → Option (StreamResult D) → Prop
  | none, none => True
  | some ra, some rb => ra.observed = rb.observed ∧ Sim ra.fds rb.fds
  | _, _ => False

/-! ## Streaming against the one-shot path -/

/-- Modelled from the spec: the type `InBufNode` of `lzma2_dec.h` (absent from the
sources), "a fixed-capacity byte array, a filled-length counter, and a forward link". -/
structure InBufNode where
  inBuf : List BYTE
  length : Nat
  next : Option Nat
deriving DecidableEq, Repr

/-- Modelled from the spec: the type `InputBlock` of `lzma2_dec.h` (absent from the
sources), "a starting node and offset, an ending node and offset, and the cumulative
unpacked size the parser computed for this range". -/
structure InputBlock where
  first : Option Nat
  last : Option Nat
  startPos : Nat
  endPos : Nat
  unpackSize : Nat
deriving DecidableEq, Repr

/-- The type `ThreadInfo`; `outBuf` is `none` for a null pointer and the memory of the
buffer otherwise. -/
structure ThreadInfo where
  inBlock : InputBlock
  outBuf : Option (List BYTE)
  bufSize : Nat
deriving DecidableEq, Repr

/-- The type `Lzma2DecMt`, together with the input nodes allocated so far (`nodes`). -/
structure Lzma2DecMt where
  nodes : List InBufNode
  head : Option Nat
  first : Option Nat
  numThreads : Nat
  maxThreads : Nat
  srcThread : Nat
  srcPos : Nat
  isWriting : Int
  prop : Nat
  threads : Nat → ThreadInfo

/-- The type `FL2_DStream` with its coordinator `decmt`; `dic` is the memory of the
dictionary the decoder `fds->dec` writes to. -/
structure FL2_DStreamMt (D : Type) where
  fds : FL2_DStream D
  decmt : Lzma2DecMt
  dic : List BYTE

/-- What the multithreaded part takes from outside the translation unit, on top of
`Externals`: the constants and the parser of `lzma2_dec.h`, `malloc`, the conversion
of a `size_t` to `int`, and `FL2_decompressBlocksMt`, which `FL2_decompressStreamMt`
calls and no source file defines. -/
structure MtExternals (D : Type) extends Externals D where
  LZMA2_MT_INPUT_SIZE : Nat
  LZMA_REQUIRED_INPUT_MAX : Nat
  CHUNK_MORE_DATA : Int
  CHUNK_CONTINUE : Int
  CHUNK_DICT_RESET : Int
  CHUNK_FINAL : Int
  CHUNK_ERROR : Int
  CHUNK_NO_MEMORY : Int
  FL2_error_no_error : Int
  intOfSize : Nat → Int
  malloc : Nat → Option (List BYTE)
  FLzma2Dec_CreateInbufNode : List InBufNode → Option Nat → Option (List InBufNode × Nat)
  FLzma2Dec_ParseInput : List InBufNode → InputBlock → Int × InputBlock
  FL2_decompressBlocksMt : FL2_DStreamMt D → Nat × FL2_DStreamMt D

/-- A slot after `memset(..., 0, ...)`. -/
def zeroThread : ThreadInfo :=
  { inBlock := { first := none, last := none, startPos := 0, endPos := 0, unpackSize := 0 },
    outBuf := none, bufSize := 0 }

/-- The assignment `decmt->threads[i] = t`. -/
def Lzma2DecMt.setThread (decmt : Lzma2DecMt) (i : Nat) (t : ThreadInfo) : Lzma2DecMt :=
  { decmt with threads := fun j => if j = i then t else decmt.threads j }

/-- The assignment `decmt->threads[i].inBlock = b`. -/
def Lzma2DecMt.setBlock (decmt : Lzma2DecMt) (i : Nat) (b : InputBlock) : Lzma2DecMt :=
  decmt.setThread i { decmt.threads i with inBlock := b }

/-- The node `*(inBlock->last)`. -/
def lastNode (nodes : List InBufNode) (b : InputBlock) : Option InBufNode :=
  match b.last with
  | none => none
  | some l => nodes.get? l

/-- The function `FL2_Lzma2DecMt_Create(numThreads)`: the object it builds, or `none`
when `malloc` returns a null pointer.  `alloc` is what `malloc` returns, the object
with the indeterminate contents of fresh memory; the fields `srcThread`, `srcPos` and
`prop` keep those contents.  The source builds the object and ends without a `return`
statement. -/
def FL2_Lzma2DecMt_Create {D : Type} (env : MtExternals D) (alloc : Option Lzma2DecMt)
    (numThreads : Nat) : Option Lzma2DecMt :=
  match alloc with
  | none => none
  | some fresh =>
    let made := env.FLzma2Dec_CreateInbufNode fresh.nodes none
    let nodes := match made with
      | none => fresh.nodes
      | some m => m.1
    let head := match made with
      | none => none
      | some m => some m.2
    let cleared : Lzma2DecMt :=
      { fresh with
        nodes := nodes, head := head, first := head, numThreads := 1, maxThreads := numThreads,
        isWriting := 0,
        threads := fun i => if i < numThreads then zeroThread else fresh.threads i }
    some (cleared.setBlock 0 { (cleared.threads 0).inBlock with first := head })

/-- The function `FL2_AllocThread(decmt)`. -/
def FL2_AllocThread {D : Type} (env : MtExternals D) (decmt : Lzma2DecMt) : Int × Lzma2DecMt :=
  let t := decmt.threads decmt.numThreads
  let outBuf := env.malloc t.inBlock.unpackSize
  let decmt1 := decmt.setThread decmt.numThreads { t with outBuf := outBuf }
  match outBuf with
  | none => (1, decmt1)
  | some _ => (0, { decmt1 with numThreads := size_add env.w decmt1.numThreads 1 })

/-- The loop `while (inBlock->endPos < inBlock->last->length) { res =
FLzma2Dec_ParseInput(inBlock); if (res != CHUNK_CONTINUE) break; }` of `FL2_ParseMt`. -/
def parseLoop {D : Type} (env : MtExternals D) (nodes : List InBufNode) :
    Nat → Int → InputBlock → Option (Int × InputBlock)
  | fuel, res, b =>
    match lastNode nodes b with
    | none => none
    | some node =>
      if b.endPos < node.length then
        match fuel with
        | 0 => none
        | fuel + 1 =>
          let r := env.FLzma2Dec_ParseInput nodes b
          if r.1 ≠ env.CHUNK_CONTINUE then some r
          else parseLoop env nodes fuel r.1 r.2
      else some (res, b)

/-- The function `FL2_ParseMt(decmt)`. -/
def FL2_ParseMt {D : Type} (env : MtExternals D) (fuel : Nat) (decmt : Lzma2DecMt) :
    Option (Int × Lzma2DecMt) :=
  match parseLoop env decmt.nodes fuel env.CHUNK_MORE_DATA
      (decmt.threads decmt.numThreads).inBlock with
  | none => none
  | some (res, b) =>
    let decmt1 := decmt.setBlock decmt.numThreads b
    if res = env.CHUNK_DICT_RESET ∨ res = env.CHUNK_FINAL then
      let a := FL2_AllocThread env decmt1
      if a.1 ≠ 0 then some (env.CHUNK_NO_MEMORY, a.2)
      else some (res, a.2)
    else some (res, decmt1)

/-- How one pass through the body of the loop of `FL2_LoadInputMt` goes on. -/
inductive LoadStep where
  | leave (ret : Int) (decmt : Lzma2DecMt)
  | copy (slot : Nat) (res : Int) (decmt : Lzma2DecMt)

/-- The block `if (inBlock->last->length == LZMA2_MT_INPUT_SIZE) { ... }` of
`FL2_LoadInputMt`, where `inBlock` is `&decmt->threads[slot].inBlock`. -/
def loadAppend {D : Type} (env : MtExternals D) (fuel : Nat) (slot : Nat) (res : Int)
    (decmt : Lzma2DecMt) : Option LoadStep :=
  let b := (decmt.threads slot).inBlock
  match lastNode decmt.nodes b with
  | none => none
  | some node =>
    if node.length = env.LZMA2_MT_INPUT_SIZE then
      match env.FLzma2Dec_CreateInbufNode decmt.nodes b.last with
      | none =>
        some (.leave (env.intOfSize env.error_memory_allocation)
          (decmt.setBlock slot { b with last := none }))
      | some made =>
        let b1 := { b with
          last := some made.2,
          endPos := size_sub env.w b.endPos
            (env.LZMA2_MT_INPUT_SIZE - env.LZMA_REQUIRED_INPUT_MAX) }
        let decmt1 := { decmt with nodes := made.1 }.setBlock slot b1
        match FL2_ParseMt env fuel decmt1 with
        | none => none
        | some (res1, decmt2) =>
          if res1 = env.CHUNK_NO_MEMORY ∨ res1 = env.CHUNK_FINAL ∨ res1 = env.CHUNK_ERROR then
            some (.leave res1 decmt2)
          else if res1 = env.CHUNK_DICT_RESET then
            if decmt2.numThreads = decmt2.maxThreads then some (.leave res1 decmt2)
            else
              let slot1 := decmt2.numThreads
              let prev := (decmt2.threads (size_sub env.w slot1 1)).inBlock.last
              some (.copy slot1 res1
                (decmt2.setBlock slot1 { (decmt2.threads slot1).inBlock with first := prev }))
          else some (.copy slot res1 decmt2)
    else some (.copy slot res decmt)

/-- The block `{ size_t toread = MIN(...); memcpy(...); inBlock->last->length += toread;
input->pos += toread; }` of `FL2_LoadInputMt`. -/
def loadCopy {D : Type} (env : MtExternals D) (slot : Nat) (decmt : Lzma2DecMt)
    (input : FL2_inBuffer) : Option (Lzma2DecMt × FL2_inBuffer) :=
  let b := (decmt.threads slot).inBlock
  match b.last, lastNode decmt.nodes b with
  | some l, some node =>
    let toread := min (size_sub env.w input.size input.pos)
      (size_sub env.w env.LZMA2_MT_INPUT_SIZE node.length)
    match readBytes input.src input.pos toread with
    | none => none
    | some bytes =>
      if node.length + toread ≤ node.inBuf.length then
        let node1 : InBufNode :=
          { node with
            inBuf := node.inBuf.take node.length ++ bytes ++ node.inBuf.drop (node.length + toread),
            length := size_add env.w node.length toread }
        some ({ decmt with nodes := decmt.nodes.set l node1 },
              { input with pos := size_add env.w input.pos toread })
      else none
  | _, _ => none

/-- The outcome of `FL2_LoadInputMt`: the returned `int`, the coordinator and the
input cursor. -/
structure LoadResult where
  ret : Int
  decmt : Lzma2DecMt
  input : FL2_inBuffer

/-- The loop `while (input->pos < input->size) { ... }` of `FL2_LoadInputMt` and the
`return res;` after it. -/
def loadLoop {D : Type} (env : MtExternals D) (fuel : Nat) :
    Nat → Nat → Int → Lzma2DecMt → FL2_inBuffer → Option LoadResult
  | n, slot, res, decmt, input =>
    if input.pos < input.size then
      match n with
      | 0 => none
      | n + 1 =>
        match loadAppend env fuel slot res decmt with
        | none => none
        | some (.leave ret decmt1) => some { ret := ret, decmt := decmt1, input := input }
        | some (.copy slot1 res1 decmt1) =>
          match loadCopy env slot1 decmt1 input with
          | none => none
          | some (decmt2, input2) => loadLoop env fuel n slot1 res1 decmt2 input2
    else some { ret := res, decmt := decmt, input := input }

/-- The function `FL2_LoadInputMt(decmt, input)`. -/
def FL2_LoadInputMt {D : Type} (env : MtExternals D) (fuel : Nat) (decmt : Lzma2DecMt)
    (input : FL2_inBuffer) : Option LoadResult :=
  loadLoop env fuel fuel decmt.numThreads env.FL2_error_no_error decmt input

/-- The function `FL2_writeStreamBlocks(fds, output)`, whose body is empty. -/
def FL2_writeStreamBlocks {D : Type} (fds : FL2_DStreamMt D) (output : FL2_outBuffer) :
    FL2_DStreamMt D × FL2_outBuffer :=
  (fds, output)

/-- The outcome of `FL2_decompressStreamMt`: the returned `size_t` (`none` when the
function ends without a `return` statement), the stream and both cursors. -/
structure StreamMtResult (D : Type) where
  ret : Option Nat
  fds : FL2_DStreamMt D
  output : FL2_outBuffer
  input : FL2_inBuffer

/-- The function `FL2_decompressStreamMt(fds, output, input)`. -/
def FL2_decompressStreamMt {D : Type} (env : MtExternals D) (fuel : Nat)
    (fds : FL2_DStreamMt D) (output : FL2_outBuffer) (input : FL2_inBuffer) :
    Option (StreamMtResult D) :=
  let w := if fds.decmt.isWriting ≠ 0 then FL2_writeStreamBlocks fds output else (fds, output)
  if w.1.decmt.isWriting = 0 then
    match FL2_LoadInputMt env fuel w.1.decmt input with
    | none => none
    | some l =>
      let fds1 : FL2_DStreamMt D := { w.1 with decmt := l.decmt }
      if (l.ret = env.CHUNK_DICT_RESET ∧ l.decmt.numThreads = l.decmt.maxThreads)
          ∨ l.ret = env.CHUNK_FINAL then
        let d := env.FL2_decompressBlocksMt fds1
        if env.FL2_isError d.1 then
          some { ret := some d.1, fds := d.2, output := w.2, input := l.input }
        else
          let w2 := FL2_writeStreamBlocks d.2 w.2
          some { ret := none, fds := w2.1, output := w2.2, input := l.input }
      else some { ret := none, fds := fds1, output := w.2, input := l.input }
  else some { ret := none, fds := w.1, output := w.2, input := input }

/-- The outcome of `FL2_decompressBlockMt`: the returned `size_t` (`none` when the
function ends without a `return` statement), the stream, the local decoder `dec` as
the call leaves it, and the decoder states `FLzma2Dec_DecodeToDic` was called on. -/
structure BlockMtResult (D : Type) where
  ret : Option Nat
  fds : FL2_DStreamMt D
  dec : D
  steps : List D

/-- The loop `while (1) { ... }` of `FL2_decompressBlockMt` for the slot `ti` and the
local decoder `dec`, from the node `node` and the offset `inPos`. -/
def blockLoop {D : Type} (env : MtExternals D) (ti : ThreadInfo) (dec : D) :
    Nat → Option Nat → Nat → FL2_DStreamMt D → List D → Option (BlockMtResult D)
  | fuel, node, inPos, fds, steps =>
    match node with
    | none => none
    | some n =>
      match fds.decmt.nodes.get? n with
      | none => none
      | some nd =>
        let r := env.FLzma2Dec_DecodeToDic fds.fds.dec fds.dic
          (size_sub env.w ti.bufSize (env.dicPos dec)) (nd.inBuf.drop inPos)
          (size_sub env.w nd.length inPos)
          (if node = ti.inBlock.last then .LZMA_FINISH_END else .LZMA_FINISH_ANY)
        let fds1 : FL2_DStreamMt D := { fds with fds := { fds.fds with dec := r.dec }, dic := r.dic }
        let steps1 := steps ++ [fds.fds.dec]
        if env.FL2_isError r.res then
          some { ret := some r.res, fds := fds1, dec := dec, steps := steps1 }
        else if node = ti.inBlock.last then
          some { ret := none, fds := fds1, dec := dec, steps := steps1 }
        else
          match fuel with
          | 0 => none
          | fuel + 1 =>
            blockLoop env ti dec fuel nd.next
              (size_add env.w (size_sub env.w r.srcLen nd.length) env.LZMA_REQUIRED_INPUT_MAX)
              fds1 steps1

/-- The function `FL2_decompressBlockMt(fds, thread)`; `uninit` is the indeterminate
content of the local `CLzma2Dec dec` before `FLzma2Dec_Init`. -/
def FL2_decompressBlockMt {D : Type} (env : MtExternals D) (fuel : Nat) (uninit : D)
    (fds : FL2_DStreamMt D) (thread : Nat) : Option (BlockMtResult D) :=
  let ti := fds.decmt.threads thread
  let i := env.FLzma2Dec_Init uninit fds.decmt.prop ti.outBuf ti.bufSize
  if env.FL2_isError i.1 then
    some { ret := some i.1, fds := fds, dec := i.2, steps := [] }
  else
    blockLoop env ti i.2 fuel ti.inBlock.first ti.inBlock.startPos fds []

/-! ## A small instance of the external collaborators

A literal-only chunk format: every non-zero byte of the chunk sequence is one
literal, and a zero byte is the end marker. -/

/-- State of the literal decoder: bytes written to the dictionary so far, and
whether the end marker was read. -/
structure LitDec where
  dicPos : Nat
  finished : Bool
deriving DecidableEq, Repr

/-- Decodes literals while output space is left, as `LZMA_FINISH_ANY` does:
status, bytes produced, count of bytes consumed. -/
def litDecodeAny : List BYTE → Nat → Nat × List BYTE × Nat
  | _, 0 => (2, [], 0)
  | [], _ + 1 => (3, [], 0)
  | b :: rest, cap + 1 =>
    if b.val = 0 then (1, [], 1)
    else
      let r := litDecodeAny rest cap
      (r.1, b :: r.2.1, r.2.2 + 1)

/-- Decodes literals up to the end marker, as `LZMA_FINISH_END` does; a literal
that does not fit the dictionary is an error (code `2 ^ 64 - 3`). -/
def litDecodeEnd : List BYTE → Nat → Nat × List BYTE × Nat
  | [], _ => (3, [], 0)
  | b :: rest, cap =>
    if b.val = 0 then (1, [], 1)
    else
      match cap with
      | 0 => (2 ^ 64 - 3, [], 1)
      | cap + 1 =>
        let r := litDecodeEnd rest cap
        (r.1, b :: r.2.1, r.2.2 + 1)

/-- A 32-bit rolling checksum standing for `XXH32`. -/
def litHash (data : List BYTE) (seed : Nat) : Nat :=
  data.foldl (fun h b => (h * 31 + b.val + 1) % 2 ^ 32) (seed % 2 ^ 32)

/-- Big-endian reading of a canonical digest. -/
def litFromCanonical (c : List BYTE) : Nat :=
  c.foldl (fun h b => h * 256 + b.val) 0

/-- The literal decoder with 64-bit `size_t` and the error numbering
`FL2_ERROR(n) = 2 ^ 64 - n`. -/
def litEnv : Externals LitDec where
  w := 64
  FL2_isError := fun code => decide (2 ^ 64 - 20 < code)
  error_memory_allocation := 2 ^ 64 - 9
  error_srcSize_wrong := 2 ^ 64 - 11
  error_checksum_wrong := 2 ^ 64 - 4
  FL2_LZMA_PROP_MASK := 0x3F
  LZMA_STATUS_FINISHED_WITH_MARK := 1
  LZMA_STATUS_NEEDS_MORE_INPUT := 3
  LzmaDec_Construct := { dicPos := 0, finished := false }
  dicPos := fun d => d.dicPos
  FLzma2Dec_Init := fun _ prop _ _ =>
    if prop ≤ 40 then (0, { dicPos := 0, finished := false })
    else (2 ^ 64 - 5, { dicPos := 0, finished := false })
  FLzma2Dec_DecodeToDic := fun d dic dicLimit src srcLen _ =>
    if d.finished then { res := 1, dec := d, dic := dic, srcLen := 0 }
    else
      let r := litDecodeEnd (src.take srcLen) (dicLimit - d.dicPos)
      { res := r.1, dec := { dicPos := d.dicPos + r.2.1.length, finished := decide (r.1 = 1) },
        dic := dic.take d.dicPos ++ r.2.1 ++ dic.drop (d.dicPos + r.2.1.length),
        srcLen := r.2.2 }
  FLzma2Dec_DecodeToBuf := fun d dest destLen src srcLen _ =>
    if d.finished then { res := 1, dec := d, dest := dest, destLen := 0, srcLen := 0 }
    else
      let r := litDecodeAny (src.take srcLen) destLen
      { res := r.1, dec := { dicPos := d.dicPos + r.2.1.length, finished := decide (r.1 = 1) },
        dest := r.2.1 ++ dest.drop r.2.1.length, destLen := r.2.1.length, srcLen := r.2.2 }
  XXH32 := litHash
  XXH32_hashFromCanonical := litFromCanonical
  XXH32_createState := some { seed := 0, fed := [] }

/-- A stream in stage `Finished`. -/
def litFinished : FL2_DStream LitDec :=
  { dec := { dicPos := 2, finished := true }, xxh := none,
    stage := .FL2DEC_STAGE_FINISHED, do_hash := 0 }

/-- A freshly created stream of the literal decoder. -/
def litFresh : FL2_DStream LitDec :=
  { dec := { dicPos := 0, finished := false }, xxh := none,
    stage := .FL2DEC_STAGE_INIT, do_hash := 0 }

/-- Property byte `0x01`, the literals `A` `B`, the end marker. -/
def litStreamAB : List BYTE := [0x01, 0x41, 0x42, 0x00]

/-- A four-byte output buffer, empty so far. -/
def litOut4 : FL2_outBuffer := { dst := [0, 0, 0, 0], size := 4, pos := 0 }

/-- The stream `litStreamAB` offered as one input buffer. -/
def litInAB : FL2_inBuffer := { src := litStreamAB, size := 4, pos := 0 }

/-- What the call on `litFresh`, `litOut4`, `litInAB` leaves behind. -/
def litResultAB : StreamResult LitDec :=
  { ret := 0,
    fds := { dec := { dicPos := 2, finished := true }, xxh := none,
             stage := .FL2DEC_STAGE_FINISHED, do_hash := 0 },
    output := { dst := [0x41, 0x42, 0, 0], size := 4, pos := 2 },
    input := { src := litStreamAB, size := 4, pos := 4 },
    events := [Event.decInit 1 0, Event.decode 1 2 3] }

/-- A stream of the literal decoder waiting in stage `Hash` after the bytes `A` `B`. -/
def litHashing : FL2_DStream LitDec :=
  { dec := { dicPos := 2, finished := true }, xxh := some { seed := 0, fed := [0x41, 0x42] },
    stage := .FL2DEC_STAGE_HASH, do_hash := 1 }

/-- Property byte with the checksum flag, `A` `B`, end marker, and the canonical
digest `00 00 08 41` of `A` `B`; the read position is at the digest. -/
def litInSum : FL2_inBuffer :=
  { src := [0x81, 0x41, 0x42, 0x00, 0x00, 0x00, 0x08, 0x41], size := 8, pos := 4 }

/-- The buffer `litInSum` with the lowest bit of the last digest byte flipped. -/
def litInSumBad : FL2_inBuffer :=
  { src := [0x81, 0x41, 0x42, 0x00, 0x00, 0x00, 0x08, 0x40], size := 8, pos := 4 }

/-- A constructed decoder context of the literal decoder. -/
def litDCtx : LitDec := { dicPos := 0, finished := false }

/-- The stream `81 41 42 00`: checksum flag set, `A` `B`, end marker, with the
stored digest still to come. -/
def litInFlagged : FL2_inBuffer := { src := [0x81, 0x41, 0x42, 0x00], size := 4, pos := 0 }

/-- What the call on `litFresh`, `litOut4`, `litInFlagged` leaves behind. -/
def litResultFlagged : StreamResult LitDec :=
  { ret := 1,
    fds := { dec := { dicPos := 2, finished := true },
             xxh := some { seed := 0, fed := [0x41, 0x42] },
             stage := .FL2DEC_STAGE_HASH, do_hash := 1 },
    output := { dst := [0x41, 0x42, 0, 0], size := 4, pos := 2 },
    input := { src := [0x81, 0x41, 0x42, 0x00], size := 4, pos := 4 },
    events := [Event.decInit 1 0, Event.createState true, Event.reset, Event.decode 1 2 3,
               Event.update [0x41, 0x42]] }

/-- The stream `81 41 42 00 00 00 08 41`: checksum flag, `A` `B`, end marker, digest. -/
def litSum : List BYTE := [0x81, 0x41, 0x42, 0x00, 0x00, 0x00, 0x08, 0x41]

/-- First call of the session on `litSum`: four bytes of output space, and the first
five bytes of the stream as input. -/
def litCall1 : FL2_outBuffer × FL2_inBuffer :=
  ({ dst := [0, 0, 0, 0], size := 4, pos := 0 },
   { src := [0x81, 0x41, 0x42, 0x00, 0x00], size := 5, pos := 0 })

/-- Second call of the session on `litSum`: the output buffer as the first call left
it, and the stream from the first unconsumed byte on. -/
def litCall2 : FL2_outBuffer × FL2_inBuffer :=
  ({ dst := [0x41, 0x42, 0, 0], size := 4, pos := 2 },
   { src := [0x00, 0x00, 0x08, 0x41], size := 4, pos := 0 })

/-- The stream after the first call of the session on `litSum`. -/
def litAfter1 : FL2_DStream LitDec :=
  { dec := { dicPos := 2, finished := true }, xxh := some { seed := 0, fed := [0x41, 0x42] },
    stage := .FL2DEC_STAGE_HASH, do_hash := 1 }

/-- What the first call of the session on `litSum` leaves behind. -/
def litResult1 : StreamResult LitDec :=
  { ret := 1, fds := litAfter1,
    output := { dst := [0x41, 0x42, 0, 0], size := 4, pos := 2 },
    input := { src := [0x81, 0x41, 0x42, 0x00, 0x00], size := 5, pos := 4 },
    events := [Event.decInit 1 0, Event.createState true, Event.reset, Event.decode 1 2 3,
               Event.update [0x41, 0x42]] }

/-- What the second call of the session on `litSum` leaves behind. -/
def litResult2 : StreamResult LitDec :=
  { ret := 0, fds := { litAfter1 with stage := .FL2DEC_STAGE_FINISHED },
    output := { dst := [0x41, 0x42, 0, 0], size := 4, pos := 2 },
    input := { src := [0x00, 0x00, 0x08, 0x41], size := 4, pos := 0 },
    events := [Event.compare 2113 2113] }

/-- What `FL2_decompressDCtx` leaves behind on `litSum` with four bytes of room. -/
def litOneShot : DCtxResult LitDec :=
  { ret := 2, dctx := { dicPos := 2, finished := true }, dst := [0x41, 0x42, 0, 0] }

/-- A stream of the literal decoder in stage `Decomp` after the byte `A`. -/
def litDecoding : FL2_DStream LitDec :=
  { dec := { dicPos := 1, finished := false }, xxh := none,
    stage := .FL2DEC_STAGE_DECOMP, do_hash := 0 }

/-- An input buffer read to its end. -/
def litInDone : FL2_inBuffer := { src := [0x01, 0x41], size := 2, pos := 2 }

/-- Two bytes of a stored digest, the other two still to come. -/
def litInHalfSum : FL2_inBuffer := { src := [0x00, 0x00], size := 2, pos := 0 }

/-- A chunk parser for the literal format: at the parsed offset of the last node a
zero byte is the final chunk (`CHUNK_FINAL`, 3), the byte `0xFF` is malformed
(`CHUNK_ERROR`, 4), the byte `0xE0` resets the dictionary (`CHUNK_DICT_RESET`, 2), any
other byte is one literal (`CHUNK_CONTINUE`, 1); past the filled part it asks for more
data (`CHUNK_MORE_DATA`, 0). -/
def litParseInput (nodes : List InBufNode) (b : InputBlock) : Int × InputBlock :=
  match lastNode nodes b with
  | none => (0, b)
  | some node =>
    match node.inBuf.get? b.endPos with
    | none => (0, b)
    | some x =>
      if x.val = 0 then (3, { b with endPos := b.endPos + 1 })
      else if x.val = 0xFF then (4, b)
      else if x.val = 0xE0 then (2, { b with endPos := b.endPos + 1 })
      else (1, { b with endPos := b.endPos + 1, unpackSize := b.unpackSize + 1 })

/-- Appends a node of four bytes; after a node `prev` the new node starts with the last
two bytes of `prev` and `prev` is linked to it. -/
def litCreateInbufNode (nodes : List InBufNode) (prev : Option Nat) :
    Option (List InBufNode × Nat) :=
  match prev with
  | none => some (nodes ++ [{ inBuf := [0, 0, 0, 0], length := 0, next := none }], nodes.length)
  | some p =>
    match nodes.get? p with
    | none => some (nodes ++ [{ inBuf := [0, 0, 0, 0], length := 2, next := none }], nodes.length)
    | some pn =>
      some (nodes.set p { pn with next := some nodes.length }
              ++ [{ inBuf := pn.inBuf.drop 2 ++ [0, 0], length := 2, next := none }],
            nodes.length)

/-- The literal decoder with nodes of four bytes, two bytes of overlap, an allocator
that always succeeds, and a `FL2_decompressBlocksMt` that does nothing and returns 0. -/
def litMt : MtExternals LitDec :=
  { toExternals := litEnv,
    LZMA2_MT_INPUT_SIZE := 4,
    LZMA_REQUIRED_INPUT_MAX := 2,
    CHUNK_MORE_DATA := 0,
    CHUNK_CONTINUE := 1,
    CHUNK_DICT_RESET := 2,
    CHUNK_FINAL := 3,
    CHUNK_ERROR := 4,
    CHUNK_NO_MEMORY := 5,
    FL2_error_no_error := 0,
    intOfSize := fun n => if 2 ^ 63 ≤ n then (n : Int) - 2 ^ 64 else (n : Int),
    malloc := fun n => some (List.replicate n 0),
    FLzma2Dec_CreateInbufNode := litCreateInbufNode,
    FLzma2Dec_ParseInput := litParseInput,
    FL2_decompressBlocksMt := fun s => (0, s) }

/-- The instance `litMt` with a `malloc` that fails. -/
def litMtNoBuf : MtExternals LitDec := { litMt with malloc := fun _ => none }

/-- The instance `litMt` with a `FLzma2Dec_CreateInbufNode` that fails. -/
def litMtNoNode : MtExternals LitDec :=
  { litMt with FLzma2Dec_CreateInbufNode := fun _ _ => none }

/-- Fresh memory for a coordinator, before any node is allocated: null pointers, and
the value 3 where the unpacked size of a slot will be. -/
def litFreshMt : Lzma2DecMt :=
  { nodes := [], head := none, first := none, numThreads := 0, maxThreads := 0,
    srcThread := 0, srcPos := 0, isWriting := 0, prop := 1,
    threads := fun _ =>
      { inBlock := { first := none, last := none, startPos := 0, endPos := 0, unpackSize := 3 },
        outBuf := none, bufSize := 0 } }

/-- A coordinator of two slots in the middle of loading: slot 0 is resolved, the block
of slot 1 ends in the node 0, which is full and holds `bytes`, parsed up to offset 2. -/
def litLoading (bytes : List BYTE) : Lzma2DecMt :=
  { nodes := [{ inBuf := bytes, length := 4, next := none }],
    head := some 0, first := some 0, numThreads := 1, maxThreads := 2,
    srcThread := 0, srcPos := 0, isWriting := 0, prop := 1,
    threads := fun i =>
      if i = 1 then
        { inBlock := { first := some 0, last := some 0, startPos := 0, endPos := 2,
                       unpackSize := 2 },
          outBuf := none, bufSize := 0 }
      else zeroThread }

/-- A stream of the literal decoder around the coordinator `decmt`. -/
def litStreamMt (decmt : Lzma2DecMt) : FL2_DStreamMt LitDec :=
  { fds := litFresh, decmt := decmt, dic := [0, 0, 0, 0] }

/-- One more byte of input. -/
def litInOne : FL2_inBuffer := { src := [0x44], size := 1, pos := 0 }

/-- A coordinator whose slot 0 is decoded (its buffer holds `A` `B`) and which is
flushing, with the read cursor at the start of slot 0. -/
def litDecoded : Lzma2DecMt :=
  { nodes := [{ inBuf := [0x41, 0x42, 0x00, 0x00], length := 3, next := none }],
    head := some 0, first := some 0, numThreads := 1, maxThreads := 1,
    srcThread := 0, srcPos := 0, isWriting := 1, prop := 1,
    threads := fun i =>
      if i = 0 then
        { inBlock := { first := some 0, last := some 0, startPos := 0, endPos := 3,
                       unpackSize := 2 },
          outBuf := some [0x41, 0x42], bufSize := 2 }
      else zeroThread }

/-- A coordinator of two slots whose parser has resolved the block of slot 1: the
chunks `A` `B` and the end marker in node 0, unpacked size 2. -/
def litParsed : Lzma2DecMt :=
  { nodes := [{ inBuf := [0x41, 0x42, 0x00, 0x00], length := 3, next := none }],
    head := some 0, first := some 0, numThreads := 1, maxThreads := 2,
    srcThread := 0, srcPos := 0, isWriting := 0, prop := 1,
    threads := fun i =>
      if i = 1 then
        { inBlock := { first := some 0, last := some 0, startPos := 0, endPos := 3,
                       unpackSize := 2 },
          outBuf := none, bufSize := 0 }
      else zeroThread }

/-- A stream whose decoder `fds->dec` stands at dictionary position 1, around a
coordinator whose slot 0 has the block `A` `B` end marker and a buffer of three bytes
with the capacity recorded. -/
def litReady : FL2_DStreamMt LitDec :=
  { fds := { dec := { dicPos := 1, finished := false }, xxh := none,
             stage := .FL2DEC_STAGE_DECOMP, do_hash := 0 },
    decmt :=
      { nodes := [{ inBuf := [0x41, 0x42, 0x00, 0x00], length := 3, next := none }],
        head := some 0, first := some 0, numThreads := 1, maxThreads := 1,
        srcThread := 0, srcPos := 0, isWriting := 0, prop := 1,
        threads := fun i =>
          if i = 0 then
            { inBlock := { first := some 0, last := some 0, startPos := 0, endPos := 3,
                           unpackSize := 2 },
              outBuf := some [0, 0, 0], bufSize := 3 }
          else zeroThread },
    dic := [0, 0, 0, 0] }

/-- A coordinator of one slot with that slot in use (`numThreads = maxThreads = 1`),
whose parser stands before a final chunk in the block it is filling. -/
def litAtBudget : Lzma2DecMt :=
  { nodes := [{ inBuf := [0x41, 0x00, 0x00, 0x00], length := 2, next := none }],
    head := some 0, first := some 0, numThreads := 1, maxThreads := 1,
    srcThread := 0, srcPos := 0, isWriting := 0, prop := 1,
    threads := fun i =>
      if i = 1 then
        { inBlock := { first := some 0, last := some 0, startPos := 0, endPos := 1,
                       unpackSize := 1 },
          outBuf := none, bufSize := 0 }
      else zeroThread }

/-! ## Properties of one `FL2_decompressStream` call -/

/-- A flow respects the return contract: an early `return` carries an error code,
or the value 1 with a stage other than `Finished`. -/
def Flow.Contract {D : Type} (env : Externals D) : Flow D → Prop
  | .ret code c => env.FL2_isError code = true ∨
      (code = 1 ∧ c.fds.stage ≠ .FL2DEC_STAGE_FINISHED)
  | .next _ => True

theorem litEnv_wf : litEnv.WF := by
  constructor <;> decide

theorem stageInit_contract {D : Type} (env : Externals D) (hwf : env.WF) (c : StreamCall D)
    (f : Flow D) (h : stageInit env c = some f) : Flow.Contract env f := by
  unfold stageInit at h
  split_ifs at h with h1
  · split at h
    · exact absurd h (by simp)
    · dsimp only at h
      split_ifs at h with h2 h3
      · cases h; exact Or.inl h2
      · split at h
        · cases h; trivial
        · split at h
          · cases h; exact Or.inl hwf.err_alloc
          · cases h; trivial
      · cases h; trivial
  · cases h; trivial

theorem stageDecomp_contract {D : Type} (env : Externals D) (c : StreamCall D)
    (f : Flow D) (h : stageDecomp env c = some f) : Flow.Contract env f := by
  unfold stageDecomp at h
  split_ifs at h with h1
  · dsimp only at h
    split at h
    · exact absurd h (by simp)
    · split_ifs at h with h2 h3 <;> cases h
      · exact Or.inl h2
      all_goals trivial
  · cases h; trivial

theorem stageHash_contract {D : Type} (env : Externals D) (hwf : env.WF) (c : StreamCall D)
    (f : Flow D) (h : stageHash env c = some f) : Flow.Contract env f := by
  unfold stageHash at h
  split_ifs at h with h1 h2
  · cases h; exact Or.inr ⟨rfl, by rw [h1]; decide⟩
  · split at h
    · dsimp only at h
      split_ifs at h with h3
      · cases h; exact Or.inl hwf.err_sum
      · cases h; trivial
    · exact absurd h (by simp)
  · cases h; trivial

theorem andThen_contract {D : Type} (env : Externals D) (f : Option (Flow D))
    (g : StreamCall D → Option (Flow D))
    (hf : ∀ x, f = some x → Flow.Contract env x)
    (hg : ∀ c x, g c = some x → Flow.Contract env x)
    (y : Flow D) (h : Flow.andThen f g = some y) : Flow.Contract env y := by
  unfold Flow.andThen at h
  split at h
  · exact absurd h (by simp)
  · cases h; exact hf _ rfl
  · exact hg _ _ h

theorem finish_contract {D : Type} (env : Externals D) (f : Option (Flow D))
    (hf : ∀ x, f = some x → Flow.Contract env x)
    (r : StreamResult D) (h : Flow.finish f = some r) (hne : env.FL2_isError r.ret = false) :
    (r.ret = 0 ↔ r.fds.stage = .FL2DEC_STAGE_FINISHED) ∧
    (r.ret = 1 ↔ r.fds.stage ≠ .FL2DEC_STAGE_FINISHED) := by
  unfold Flow.finish at h
  split at h
  · exact absurd h (by simp)
  · cases h
    rcases hf _ rfl with he | ⟨h1, h2⟩
    · simp only at hne; rw [he] at hne; exact absurd hne (by simp)
    · simp only at h1 h2 ⊢; subst h1; simp [h2]
  · cases h
    unfold stageReturn
    by_cases hs : (‹StreamCall D›).fds.stage = .FL2DEC_STAGE_FINISHED <;> simp [hs]

theorem decompressStream_zero_finished {D : Type} (env : Externals D) (hwf : env.WF)
    (fds : FL2_DStream D) (output : FL2_outBuffer) (input : FL2_inBuffer) (r : StreamResult D)
    (h : FL2_decompressStream env fds output input = some r) (hret : r.ret = 0) :
    r.fds.stage = .FL2DEC_STAGE_FINISHED := by
  have hne : env.FL2_isError r.ret = false := by rw [hret]; exact hwf.ok_zero
  unfold FL2_decompressStream at h
  split_ifs at h with hp
  · refine (finish_contract env _ ?_ r h hne).1.1 hret
    intro x hx
    refine andThen_contract env _ _ ?_ (fun c y hy => stageHash_contract env hwf c y hy) x hx
    intro y hy
    exact andThen_contract env _ _ (fun z hz => stageInit_contract env hwf _ z hz)
      (fun c z hz => stageDecomp_contract env c z hz) y hy
  · cases h
    by_contra hs
    have hs2 : ¬ fds.stage = .FL2DEC_STAGE_FINISHED := hs
    simp [stageReturn, hs2] at hret

/-- C1. Return contract of `FL2_decompressStream`: whenever the call returns a value
that is not an error code, that value is 0 exactly when the stage after the call
is `Finished`, and 1 exactly when it is any other stage. -/
theorem FL2_decompressStream_return_contract {D : Type} (env : Externals D) (hwf : env.WF)
    (fds : FL2_DStream D) (output : FL2_outBuffer) (input : FL2_inBuffer) (r : StreamResult D)
    (h : FL2_decompressStream env fds output input = some r)
    (hne : env.FL2_isError r.ret = false) :
    (r.ret = 0 ↔ r.fds.stage = .FL2DEC_STAGE_FINISHED) ∧
    (r.ret = 1 ↔ r.fds.stage ≠ .FL2DEC_STAGE_FINISHED) := by
  unfold FL2_decompressStream at h
  split_ifs at h with hp
  · refine finish_contract env _ ?_ r h hne
    intro x hx
    refine andThen_contract env _ _ ?_ (fun c y hy => stageHash_contract env hwf c y hy) x hx
    intro y hy
    exact andThen_contract env _ _ (fun z hz => stageInit_contract env hwf _ z hz)
      (fun c z hz => stageDecomp_contract env c z hz) y hy
  · cases h
    unfold stageReturn
    by_cases hs : fds.stage = .FL2DEC_STAGE_FINISHED <;> simp [hs]

/-- Witness of C1 on the literal decoder: the stream `01 41 42 00` decoded in one call. -/
theorem FL2_decompressStream_return_contract_witness :
    litEnv.WF ∧ FL2_decompressStream litEnv litFresh litOut4 litInAB = some litResultAB ∧
    litEnv.FL2_isError litResultAB.ret = false ∧
    ((litResultAB.ret = 0 ↔ litResultAB.fds.stage = .FL2DEC_STAGE_FINISHED) ∧
     (litResultAB.ret = 1 ↔ litResultAB.fds.stage ≠ .FL2DEC_STAGE_FINISHED)) :=
  ⟨litEnv_wf, rfl, rfl,
    FL2_decompressStream_return_contract litEnv litEnv_wf litFresh litOut4 litInAB litResultAB
      rfl rfl⟩

theorem decompressStream_finished {D : Type} (env : Externals D) (fds : FL2_DStream D)
    (output : FL2_outBuffer) (input : FL2_inBuffer)
    (hst : fds.stage = .FL2DEC_STAGE_FINISHED) :
    FL2_decompressStream env fds output input =
      some { ret := 0, fds := fds, output := output, input := input, events := [] } := by
  unfold FL2_decompressStream
  split_ifs with hp
  · simp [stageInit, stageDecomp, stageHash, Flow.andThen, Flow.finish, stageReturn, hst]
  · simp [stageReturn, hst]

/-- C10. In stage `Finished` a call returns 0, makes no external call and leaves the
stream (stage, checksum flag, digest accumulator, decoder state) and both cursors
with their buffers exactly as they were, whether or not input is unread; so a
sequence of any length of such calls returns 0 every time and changes nothing. -/
theorem FL2_decompressStream_finished_noop {D : Type} (env : Externals D)
    (fds : FL2_DStream D) (hst : fds.stage = .FL2DEC_STAGE_FINISHED) :
    (∀ (output : FL2_outBuffer) (input : FL2_inBuffer),
      FL2_decompressStream env fds output input =
        some { ret := 0, fds := fds, output := output, input := input, events := [] }) ∧
    (∀ calls : List (FL2_outBuffer × FL2_inBuffer),
      runStream env fds calls =
        some (calls.map fun call =>
          { ret := 0, fds := fds, output := call.1, input := call.2, events := [] })) := by
  refine ⟨fun output input => decompressStream_finished env fds output input hst, ?_⟩
  intro calls
  induction calls with
  | nil => rfl
  | cons call rest ih =>
    simp only [runStream, decompressStream_finished env fds call.1 call.2 hst, ih, List.map_cons]

/-- Witness of C10: a finished stream of the literal decoder, offered unread input. -/
theorem FL2_decompressStream_finished_noop_witness :
    litFinished.stage = .FL2DEC_STAGE_FINISHED ∧
    FL2_decompressStream litEnv litFinished litOut4 litInAB =
      some { ret := 0, fds := litFinished, output := litOut4, input := litInAB, events := [] } :=
  ⟨rfl, (FL2_decompressStream_finished_noop litEnv litFinished rfl).1 litOut4 litInAB⟩

/-! ## The trailing checksum in streaming -/

theorem size_sub_of_le (w a b : Nat) (hba : b ≤ a) (ha : a < 2 ^ w) :
    size_sub w a b = a - b := by
  unfold size_sub
  have hb : b % 2 ^ w = b := Nat.mod_eq_of_lt (by omega)
  rw [hb]
  have h : a + (2 ^ w - b) = (a - b) + 2 ^ w := by omega
  rw [h, Nat.add_mod_right]
  exact Nat.mod_eq_of_lt (by omega)

theorem readBytes_of_le (mem : List BYTE) (pos n : Nat) (h : pos + n ≤ mem.length) :
    readBytes mem pos n = some ((mem.drop pos).take n) := by
  unfold readBytes
  rw [if_pos h]

theorem litFromCanonical_inj (a b : List BYTE) (ha : a.length = 4) (hb : b.length = 4)
    (h : litFromCanonical a = litFromCanonical b) : a = b := by
  match a, ha with
  | [a0, a1, a2, a3], _ =>
    match b, hb with
    | [b0, b1, b2, b3], _ =>
      simp only [litFromCanonical, List.foldl_cons, List.foldl_nil] at h
      have h0 := a0.isLt; have h1 := a1.isLt; have h2 := a2.isLt; have h3 := a3.isLt
      have k0 := b0.isLt; have k1 := b1.isLt; have k2 := b2.isLt; have k3 := b3.isLt
      have e0 : a0 = b0 := Fin.ext (by omega)
      have e1 : a1 = b1 := Fin.ext (by omega)
      have e2 : a2 = b2 := Fin.ext (by omega)
      have e3 : a3 = b3 := Fin.ext (by omega)
      rw [e0, e1, e2, e3]

/-- The result of a call entered in stage `Hash` with four unread bytes in the buffer. -/
theorem decompressStream_hash {D : Type} (env : Externals D) (fds : FL2_DStream D)
    (x : XXH32_state_t) (output : FL2_outBuffer) (input : FL2_inBuffer)
    (hst : fds.stage = .FL2DEC_STAGE_HASH) (hx : fds.xxh = some x)
    (hunread : input.pos + 4 ≤ input.size) (hmem : input.size ≤ input.src.length)
    (hsz : input.size < 2 ^ env.w) :
    FL2_decompressStream env fds output input =
      some (if env.XXH32_hashFromCanonical ((input.src.drop input.pos).take 4) ≠ XXH32_digest env x
        then { ret := env.error_checksum_wrong, fds := fds, output := output, input := input,
               events := [Event.compare
                 (env.XXH32_hashFromCanonical ((input.src.drop input.pos).take 4))
                 (XXH32_digest env x)] }
        else { ret := 0, fds := { fds with stage := .FL2DEC_STAGE_FINISHED }, output := output,
               input := input,
               events := [Event.compare
                 (env.XXH32_hashFromCanonical ((input.src.drop input.pos).take 4))
                 (XXH32_digest env x)] }) := by
  have hp : input.pos < input.size := by omega
  have hsub : size_sub env.w input.size input.pos = input.size - input.pos :=
    size_sub_of_le _ _ _ (by omega) hsz
  have hread : readBytes input.src input.pos XXHASH_SIZEOF
      = some ((input.src.drop input.pos).take 4) :=
    readBytes_of_le _ _ _ (by unfold XXHASH_SIZEOF; omega)
  have hnot : ¬ (input.size - input.pos < XXHASH_SIZEOF) := by unfold XXHASH_SIZEOF; omega
  unfold FL2_decompressStream
  rw [if_pos hp]
  simp only [stageInit, stageDecomp, stageHash, Flow.andThen, hst, hsub, hread, hx, hnot,
    if_false, if_true, reduceCtorEq]
  split_ifs with hcmp
  · simp [Flow.finish]
  · simp [Flow.finish, stageReturn]

/-- C4. A call entered in stage `Hash` with at least four unread input bytes compares
the value decoded from the next four bytes with the digest of the accumulator.  It
returns `checksum_wrong` and stays in `Hash` exactly when the two differ; when they
agree it moves to `Finished` and returns 0.  Since the canonical decoding of four
bytes is injective, a stream that verified fails with `checksum_wrong` as soon as
its four stored bytes are changed in any way. -/
theorem FL2_decompressStream_hash_check {D : Type} (env : Externals D) (hwf : env.WF)
    (hinj : ∀ a b : List BYTE, a.length = 4 → b.length = 4 →
      env.XXH32_hashFromCanonical a = env.XXH32_hashFromCanonical b → a = b)
    (fds : FL2_DStream D) (x : XXH32_state_t) (output : FL2_outBuffer) (input : FL2_inBuffer)
    (hst : fds.stage = .FL2DEC_STAGE_HASH) (hx : fds.xxh = some x)
    (hunread : input.pos + 4 ≤ input.size) (hmem : input.size ≤ input.src.length)
    (hsz : input.size < 2 ^ env.w) :
    ∃ r, FL2_decompressStream env fds output input = some r ∧
      ((r.ret = env.error_checksum_wrong ∧ r.fds.stage = .FL2DEC_STAGE_HASH) ↔
        env.XXH32_hashFromCanonical ((input.src.drop input.pos).take 4) ≠ XXH32_digest env x) ∧
      (env.XXH32_hashFromCanonical ((input.src.drop input.pos).take 4) = XXH32_digest env x →
        r.ret = 0 ∧ r.fds.stage = .FL2DEC_STAGE_FINISHED) ∧
      (∀ changed : FL2_inBuffer, changed.pos = input.pos → changed.size = input.size →
        changed.size ≤ changed.src.length →
        (changed.src.drop changed.pos).take 4 ≠ (input.src.drop input.pos).take 4 →
        r.ret = 0 →
        ∃ r2, FL2_decompressStream env fds output changed = some r2 ∧
          r2.ret = env.error_checksum_wrong ∧ r2.fds.stage = .FL2DEC_STAGE_HASH) := by
  have hne0 : env.error_checksum_wrong ≠ 0 := by
    intro h0
    have h1 := hwf.err_sum
    rw [h0, hwf.ok_zero] at h1
    exact absurd h1 (by simp)
  refine ⟨_, decompressStream_hash env fds x output input hst hx hunread hmem hsz, ?_, ?_, ?_⟩
  · split_ifs with hcmp
    · simp [hst, hcmp]
    · simp only [ne_eq, not_not] at hcmp
      simp [hcmp, Ne.symm hne0]
  · intro heq
    simp [heq]
  · intro changed hpos hsize hcmem hdiff hret
    have hverified : env.XXH32_hashFromCanonical ((input.src.drop input.pos).take 4)
        = XXH32_digest env x := by
      by_contra hcmp
      rw [if_pos hcmp] at hret
      exact hne0 hret
    have hlen1 : ((input.src.drop input.pos).take 4).length = 4 := by
      simp only [List.length_take, List.length_drop]; omega
    have hlen2 : ((changed.src.drop changed.pos).take 4).length = 4 := by
      simp only [List.length_take, List.length_drop]; omega
    have hcmp2 : env.XXH32_hashFromCanonical ((changed.src.drop changed.pos).take 4)
        ≠ XXH32_digest env x := by
      intro h
      exact hdiff (hinj _ _ hlen2 hlen1 (h.trans hverified.symm))
    refine ⟨_, decompressStream_hash env fds x output changed hst hx (by omega) hcmem
      (by omega), ?_⟩
    rw [if_pos hcmp2]
    exact ⟨rfl, hst⟩

/-- Witness of C4: the literal decoder in stage `Hash` with the digest of `A` `B` in the
input returns 0; with one bit of the digest flipped it returns `checksum_wrong`. -/
theorem FL2_decompressStream_hash_check_witness :
    (FL2_decompressStream litEnv litHashing litOut4 litInSum).map StreamResult.ret = some 0 ∧
    (FL2_decompressStream litEnv litHashing litOut4 litInSumBad).map StreamResult.ret
      = some (2 ^ 64 - 4) ∧
    ∃ r, FL2_decompressStream litEnv litHashing litOut4 litInSum = some r ∧
      ((r.ret = litEnv.error_checksum_wrong ∧ r.fds.stage = .FL2DEC_STAGE_HASH) ↔
        litEnv.XXH32_hashFromCanonical ((litInSum.src.drop litInSum.pos).take 4)
          ≠ XXH32_digest litEnv { seed := 0, fed := [0x41, 0x42] }) ∧
      (litEnv.XXH32_hashFromCanonical ((litInSum.src.drop litInSum.pos).take 4)
          = XXH32_digest litEnv { seed := 0, fed := [0x41, 0x42] } →
        r.ret = 0 ∧ r.fds.stage = .FL2DEC_STAGE_FINISHED) ∧
      (∀ changed : FL2_inBuffer, changed.pos = litInSum.pos → changed.size = litInSum.size →
        changed.size ≤ changed.src.length →
        (changed.src.drop changed.pos).take 4 ≠ (litInSum.src.drop litInSum.pos).take 4 →
        r.ret = 0 →
        ∃ r2, FL2_decompressStream litEnv litHashing litOut4 changed = some r2 ∧
          r2.ret = litEnv.error_checksum_wrong ∧ r2.fds.stage = .FL2DEC_STAGE_HASH) :=
  ⟨rfl, rfl,
    FL2_decompressStream_hash_check litEnv litEnv_wf litFromCanonical_inj litHashing
      { seed := 0, fed := [0x41, 0x42] } litOut4 litInSum rfl rfl (by decide) (by decide)
      (by decide)⟩

/-! ## The one-shot path -/

/-- C6. With `srcSize ≥ 1` and a decoder that initialised without error,
`FL2_decompressDCtx` returns `srcSize_wrong` when `FLzma2Dec_DecodeToDic` reports
needs-more-input; and when the decoder did not fail, the checksum flag of the
property byte is set and fewer than four bytes follow the `c` bytes the decoder
consumed out of the `srcSize - 1` it was given, it returns `srcSize_wrong` too. -/
theorem FL2_decompressDCtx_srcSize_wrong {D : Type} (env : Externals D) (hwf : env.WF)
    (dctx : D) (dst : List BYTE) (dstCapacity : Nat) (src : List BYTE) (srcSize : Nat) (b : BYTE)
    (hb : src.get? 0 = some b) (h1 : 1 ≤ srcSize) (hsz : srcSize < 2 ^ env.w)
    (hinit : env.FL2_isError (dctxInit env dctx dst dstCapacity b).1 = false) :
    (((dctxDecode env dctx dst dstCapacity src srcSize b).res = env.LZMA_STATUS_NEEDS_MORE_INPUT →
      FL2_decompressDCtx env dctx dst dstCapacity src srcSize =
        some { ret := env.error_srcSize_wrong,
               dctx := (dctxDecode env dctx dst dstCapacity src srcSize b).dec,
               dst := (dctxDecode env dctx dst dstCapacity src srcSize b).dic }) ∧
     (env.FL2_isError (dctxDecode env dctx dst dstCapacity src srcSize b).res = false →
      propHash b ≠ 0 →
      (dctxDecode env dctx dst dstCapacity src srcSize b).srcLen ≤ srcSize - 1 →
      srcSize - 1 - (dctxDecode env dctx dst dstCapacity src srcSize b).srcLen < 4 →
      FL2_decompressDCtx env dctx dst dstCapacity src srcSize =
        some { ret := env.error_srcSize_wrong,
               dctx := (dctxDecode env dctx dst dstCapacity src srcSize b).dec,
               dst := (dctxDecode env dctx dst dstCapacity src srcSize b).dic })) := by
  constructor
  · intro hres
    have herr : env.FL2_isError (dctxDecode env dctx dst dstCapacity src srcSize b).res = false := by
      rw [hres]; exact hwf.ok_more
    unfold FL2_decompressDCtx
    simp only [hb, hinit, Bool.false_eq_true, if_false, hres, hwf.ok_more, if_true]
  · intro herr hflag hle hlt
    have hend : size_sub env.w srcSize 1 = srcSize - 1 := size_sub_of_le _ _ _ h1 hsz
    have hrem : size_sub env.w (srcSize - 1)
        (dctxDecode env dctx dst dstCapacity src srcSize b).srcLen
        = srcSize - 1 - (dctxDecode env dctx dst dstCapacity src srcSize b).srcLen :=
      size_sub_of_le _ _ _ hle (by omega)
    have hlt4 : srcSize - 1 - (dctxDecode env dctx dst dstCapacity src srcSize b).srcLen
        < XXHASH_SIZEOF := hlt
    unfold FL2_decompressDCtx
    simp only [hb, hinit, herr, Bool.false_eq_true, if_false, hend, hrem, hlt4, if_true, hflag,
      ne_eq, not_false_eq_true, ite_self]

/-- C7. With `srcSize ≥ 1`, a decoder that initialised without error and a decode
that finished with its end marker after moving `dicPos` by `n`:
with the checksum flag clear `FL2_decompressDCtx` returns `n`; with the flag set and
at least four bytes after the consumed chunk data it returns `n` when the value
stored in those four bytes equals `XXH32` with seed 0 of the first `n` bytes of
`dst`, and `checksum_wrong` otherwise. -/
theorem FL2_decompressDCtx_finished {D : Type} (env : Externals D) (hwf : env.WF)
    (dctx : D) (dst : List BYTE) (dstCapacity : Nat) (src : List BYTE) (srcSize : Nat) (b : BYTE)
    (n : Nat)
    (hb : src.get? 0 = some b) (h1 : 1 ≤ srcSize) (hsz : srcSize < 2 ^ env.w)
    (hinit : env.FL2_isError (dctxInit env dctx dst dstCapacity b).1 = false)
    (hres : (dctxDecode env dctx dst dstCapacity src srcSize b).res
      = env.LZMA_STATUS_FINISHED_WITH_MARK)
    (hn : n = size_sub env.w (env.dicPos (dctxDecode env dctx dst dstCapacity src srcSize b).dec)
      (env.dicPos (dctxInit env dctx dst dstCapacity b).2)) :
    ((propHash b = 0 →
      FL2_decompressDCtx env dctx dst dstCapacity src srcSize =
        some { ret := n,
               dctx := (dctxDecode env dctx dst dstCapacity src srcSize b).dec,
               dst := (dctxDecode env dctx dst dstCapacity src srcSize b).dic }) ∧
     (propHash b ≠ 0 →
      (dctxDecode env dctx dst dstCapacity src srcSize b).srcLen + 4 ≤ srcSize - 1 →
      srcSize ≤ src.length →
      n ≤ (dctxDecode env dctx dst dstCapacity src srcSize b).dic.length →
      FL2_decompressDCtx env dctx dst dstCapacity src srcSize =
        some { ret :=
                 if env.XXH32_hashFromCanonical (((src.drop 1).drop
                      (dctxDecode env dctx dst dstCapacity src srcSize b).srcLen).take 4)
                    = env.XXH32 ((dctxDecode env dctx dst dstCapacity src srcSize b).dic.take n) 0
                 then n else env.error_checksum_wrong,
               dctx := (dctxDecode env dctx dst dstCapacity src srcSize b).dec,
               dst := (dctxDecode env dctx dst dstCapacity src srcSize b).dic })) := by
  have herr : env.FL2_isError (dctxDecode env dctx dst dstCapacity src srcSize b).res = false := by
    rw [hres]; exact hwf.ok_mark
  have hmore : (dctxDecode env dctx dst dstCapacity src srcSize b).res
      ≠ env.LZMA_STATUS_NEEDS_MORE_INPUT := by
    rw [hres]; exact hwf.mark_ne_more
  constructor
  · intro hflag
    unfold FL2_decompressDCtx
    simp only [hb, hinit, herr, hmore, Bool.false_eq_true, if_false, hflag, ne_eq,
      not_true_eq_false, ← hn]
  · intro hflag hfour hmem hdic
    have hend : size_sub env.w srcSize 1 = srcSize - 1 := size_sub_of_le _ _ _ h1 hsz
    have hrem : size_sub env.w (srcSize - 1)
        (dctxDecode env dctx dst dstCapacity src srcSize b).srcLen
        = srcSize - 1 - (dctxDecode env dctx dst dstCapacity src srcSize b).srcLen :=
      size_sub_of_le _ _ _ (by omega) (by omega)
    have hge : ¬ (srcSize - 1 - (dctxDecode env dctx dst dstCapacity src srcSize b).srcLen
        < XXHASH_SIZEOF) := by unfold XXHASH_SIZEOF; omega
    have hread1 : readBytes (src.drop 1)
        (dctxDecode env dctx dst dstCapacity src srcSize b).srcLen XXHASH_SIZEOF
        = some (((src.drop 1).drop
            (dctxDecode env dctx dst dstCapacity src srcSize b).srcLen).take 4) :=
      readBytes_of_le _ _ _ (by simp only [List.length_drop, XXHASH_SIZEOF]; omega)
    have hread2 : readBytes (dctxDecode env dctx dst dstCapacity src srcSize b).dic 0 n
        = some ((dctxDecode env dctx dst dstCapacity src srcSize b).dic.take n) := by
      rw [readBytes_of_le _ _ _ (by omega)]; simp
    unfold FL2_decompressDCtx
    simp only [hb, hinit, herr, hmore, Bool.false_eq_true, if_false, hflag, ne_eq,
      not_false_eq_true, if_true, hend, hrem, hge, hread1, ← hn, hread2]
    split_ifs <;> simp_all

/-- Witness of C6 on the literal decoder: `01 41 42` lacks its end marker, and
`81 41 42 00 00 00` has two bytes where the four digest bytes should be. -/
theorem FL2_decompressDCtx_srcSize_wrong_witness :
    FL2_decompressDCtx litEnv litDCtx [0, 0, 0, 0] 4 [0x01, 0x41, 0x42] 3 =
      some { ret := 2 ^ 64 - 11, dctx := { dicPos := 2, finished := false },
             dst := [0x41, 0x42, 0, 0] } ∧
    FL2_decompressDCtx litEnv litDCtx [0, 0, 0, 0] 4 [0x81, 0x41, 0x42, 0x00, 0x00, 0x00] 6 =
      some { ret := 2 ^ 64 - 11, dctx := { dicPos := 2, finished := true },
             dst := [0x41, 0x42, 0, 0] } :=
  ⟨(FL2_decompressDCtx_srcSize_wrong litEnv litEnv_wf litDCtx [0, 0, 0, 0] 4
      [0x01, 0x41, 0x42] 3 0x01 rfl (by decide) (by decide) rfl).1 rfl,
   (FL2_decompressDCtx_srcSize_wrong litEnv litEnv_wf litDCtx [0, 0, 0, 0] 4
      [0x81, 0x41, 0x42, 0x00, 0x00, 0x00] 6 0x81 rfl (by decide) (by decide) rfl).2
      rfl (by decide) (by decide) (by decide)⟩

/-- Witness of C7 on the literal decoder: `01 41 42 00` gives 2 bytes, and so does
`81 41 42 00` followed by the canonical digest `00 00 08 41` of `A` `B`. -/
theorem FL2_decompressDCtx_finished_witness :
    FL2_decompressDCtx litEnv litDCtx [0, 0, 0, 0] 4 litStreamAB 4 =
      some { ret := 2, dctx := { dicPos := 2, finished := true }, dst := [0x41, 0x42, 0, 0] } ∧
    FL2_decompressDCtx litEnv litDCtx [0, 0, 0, 0] 4 litInSum.src 8 =
      some { ret := 2, dctx := { dicPos := 2, finished := true }, dst := [0x41, 0x42, 0, 0] } :=
  ⟨(FL2_decompressDCtx_finished litEnv litEnv_wf litDCtx [0, 0, 0, 0] 4 litStreamAB 4 0x01 2
      rfl (by decide) (by decide) rfl rfl rfl).1 rfl,
   (FL2_decompressDCtx_finished litEnv litEnv_wf litDCtx [0, 0, 0, 0] 4 litInSum.src 8 0x81 2
      rfl (by decide) (by decide) rfl rfl rfl).2 (by decide) (by decide) (by decide)
      (by decide)⟩

theorem decompressDCtx_other_status {D : Type} (env : Externals D) (dctx : D)
    (dst : List BYTE) (dstCapacity : Nat) (src : List BYTE) (srcSize : Nat) (b : BYTE)
    (hb : src.get? 0 = some b) (hflag : propHash b = 0)
    (hinit : env.FL2_isError (dctxInit env dctx dst dstCapacity b).1 = false)
    (herr : env.FL2_isError (dctxDecode env dctx dst dstCapacity src srcSize b).res = false)
    (hmore : (dctxDecode env dctx dst dstCapacity src srcSize b).res
      ≠ env.LZMA_STATUS_NEEDS_MORE_INPUT) :
    FL2_decompressDCtx env dctx dst dstCapacity src srcSize =
      some { ret := size_sub env.w
               (env.dicPos (dctxDecode env dctx dst dstCapacity src srcSize b).dec)
               (env.dicPos (dctxInit env dctx dst dstCapacity b).2),
             dctx := (dctxDecode env dctx dst dstCapacity src srcSize b).dec,
             dst := (dctxDecode env dctx dst dstCapacity src srcSize b).dic } := by
  unfold FL2_decompressDCtx
  simp only [hb, hinit, herr, hmore, Bool.false_eq_true, if_false, hflag, ne_eq,
    not_true_eq_false]

theorem hasMark_append {D : Type} (env : Externals D) (es more : List Event)
    (h : HasMark env es) : HasMark env (es ++ more) := by
  obtain ⟨a, b, hab⟩ := h
  exact ⟨a, b, List.mem_append_left _ hab⟩

theorem hasMatch_append (es more : List Event) (h : HasMatch es) : HasMatch (es ++ more) := by
  obtain ⟨v, hv⟩ := h
  exact ⟨v, List.mem_append_left _ hv⟩

theorem stageInit_inv {D : Type} (env : Externals D) (h0 : List Event) (c : StreamCall D)
    (f : Flow D) (h : stageInit env c = some f)
    (hi : SessionInv env (h0 ++ c.events) c.fds) :
    SessionInv env (h0 ++ f.call.events) f.call.fds := by
  unfold stageInit at h
  by_cases h1 : c.fds.stage = .FL2DEC_STAGE_INIT
  · rw [if_pos h1] at h
    split at h
    · exact absurd h (by simp)
    · dsimp only at h
      split_ifs at h with h2 h3
      · cases h; constructor <;> intro hs <;> simp [Flow.call, h1] at hs
      · split at h
        · cases h; constructor <;> intro hs <;> simp [Flow.call] at hs
        · split at h
          · cases h; constructor <;> intro hs <;> simp [Flow.call, h1] at hs
          · cases h; constructor <;> intro hs <;> simp [Flow.call] at hs
      · cases h; constructor <;> intro hs <;> simp [Flow.call] at hs
  · rw [if_neg h1] at h
    cases h
    exact hi

theorem hashUpdate_frame {D : Type} (fds fds2 : FL2_DStream D) (dst : List BYTE)
    (pos n : Nat) (evh : List Event) (h : hashUpdate fds dst pos n = some (fds2, evh)) :
    fds2.stage = fds.stage ∧ fds2.do_hash = fds.do_hash ∧ fds2.dec = fds.dec := by
  unfold hashUpdate at h
  split_ifs at h with h1
  · split at h
    · cases h; exact ⟨rfl, rfl, rfl⟩
    · exact absurd h (by simp)
  · cases h; exact ⟨rfl, rfl, rfl⟩

theorem stageDecomp_inv {D : Type} (env : Externals D) (h0 : List Event) (c : StreamCall D)
    (f : Flow D) (h : stageDecomp env c = some f)
    (hi : SessionInv env (h0 ++ c.events) c.fds) :
    SessionInv env (h0 ++ f.call.events) f.call.fds := by
  unfold stageDecomp at h
  by_cases h1 : c.fds.stage = .FL2DEC_STAGE_DECOMP
  · rw [if_pos h1] at h
    dsimp only at h
    split at h
    · exact absurd h (by simp)
    · rename_i fds2 evh hupd
      obtain ⟨hst, -, -⟩ := hashUpdate_frame _ _ _ _ _ _ hupd
      simp only at hst
      by_cases h2 : env.FL2_isError (streamDecode env c).res = true
      · rw [if_pos h2] at h
        cases h
        constructor <;> intro hs <;> simp [Flow.call, hst, h1] at hs
      · rw [if_neg h2] at h
        by_cases h3 : (streamDecode env c).res = env.LZMA_STATUS_FINISHED_WITH_MARK
        · rw [if_pos h3] at h
          cases h
          have hmark : HasMark env (h0 ++ (c.events ++ [Event.decode (streamDecode env c).res
              (streamDecode env c).destLen (streamDecode env c).srcLen] ++ evh)) := by
            refine ⟨(streamDecode env c).destLen, (streamDecode env c).srcLen, ?_⟩
            rw [← h3]
            simp
          by_cases h4 : fds2.do_hash = 0
          · refine ⟨fun hs => ?_, fun _ => ⟨hmark, fun hh => absurd h4 hh⟩⟩
            simp [Flow.call, h4] at hs
          · refine ⟨fun _ => ⟨hmark, h4⟩, fun hs => ?_⟩
            simp [Flow.call, h4] at hs
        · rw [if_neg h3] at h
          cases h
          constructor <;> intro hs <;> simp [Flow.call, hst, h1] at hs
  · rw [if_neg h1] at h
    cases h
    exact hi

theorem stageHash_inv {D : Type} (env : Externals D) (h0 : List Event) (c : StreamCall D)
    (f : Flow D) (h : stageHash env c = some f)
    (hi : SessionInv env (h0 ++ c.events) c.fds) :
    SessionInv env (h0 ++ f.call.events) f.call.fds := by
  unfold stageHash at h
  by_cases h1 : c.fds.stage = .FL2DEC_STAGE_HASH
  · rw [if_pos h1] at h
    obtain ⟨hmark, hflag⟩ := hi.1 h1
    split_ifs at h with h2
    · cases h; exact hi
    · split at h
      · dsimp only at h
        split_ifs at h with h3
        · cases h
          constructor
          · intro _
            simp only [Flow.call, ← List.append_assoc]
            exact ⟨hasMark_append env _ _ hmark, hflag⟩
          · intro hs
            simp [Flow.call, h1] at hs
        · cases h
          constructor
          · intro hs
            simp [Flow.call] at hs
          · intro _
            simp only [Flow.call, ← List.append_assoc]
            refine ⟨hasMark_append env _ _ hmark, fun _ => ?_⟩
            simp only [ne_eq, not_not] at h3
            rw [h3]
            exact ⟨_, List.mem_append_right _ (List.mem_singleton.2 rfl)⟩
      · exact absurd h (by simp)
  · rw [if_neg h1] at h
    cases h
    exact hi

theorem andThen_call {D : Type} (P : StreamCall D → Prop) (f : Option (Flow D))
    (g : StreamCall D → Option (Flow D))
    (hf : ∀ x, f = some x → P x.call)
    (hg : ∀ c x, P c → g c = some x → P x.call)
    (y : Flow D) (h : Flow.andThen f g = some y) : P y.call := by
  unfold Flow.andThen at h
  split at h
  · exact absurd h (by simp)
  · cases h; exact hf _ rfl
  · exact hg _ _ (hf _ rfl) h

theorem finish_call {D : Type} (f : Option (Flow D)) (r : StreamResult D)
    (h : Flow.finish f = some r) :
    ∃ x, f = some x ∧ r.fds = x.call.fds ∧ r.output = x.call.output ∧
      r.input = x.call.input ∧ r.events = x.call.events := by
  unfold Flow.finish at h
  split at h
  · exact absurd h (by simp)
  · cases h; exact ⟨_, rfl, rfl, rfl, rfl, rfl⟩
  · cases h; exact ⟨_, rfl, rfl, rfl, rfl, rfl⟩

theorem decompressStream_inv {D : Type} (env : Externals D) (h0 : List Event)
    (fds : FL2_DStream D) (output : FL2_outBuffer) (input : FL2_inBuffer) (r : StreamResult D)
    (h : FL2_decompressStream env fds output input = some r) (hi : SessionInv env h0 fds) :
    SessionInv env (h0 ++ r.events) r.fds := by
  unfold FL2_decompressStream at h
  split_ifs at h with hp
  · obtain ⟨x, hx, hfds, -, -, hev⟩ := finish_call _ _ h
    rw [hfds, hev]
    refine andThen_call (fun c => SessionInv env (h0 ++ c.events) c.fds) _ _ ?_
      (fun c y hc hy => stageHash_inv env h0 c y hy hc) x hx
    intro y hy
    refine andThen_call (fun c => SessionInv env (h0 ++ c.events) c.fds) _ _ ?_
      (fun c z hc hz => stageDecomp_inv env h0 c z hz hc) y hy
    intro z hz
    exact stageInit_inv env h0 _ z hz (by simpa using hi)
  · cases h
    simpa [stageReturn] using hi

theorem eventsUpto_zero {D : Type} (r : StreamResult D) (rs : List (StreamResult D)) :
    eventsUpto (r :: rs) 0 = r.events := by
  simp [eventsUpto]

theorem eventsUpto_succ {D : Type} (r : StreamResult D) (rs : List (StreamResult D)) (k : Nat) :
    eventsUpto (r :: rs) (k + 1) = r.events ++ eventsUpto rs k := by
  simp [eventsUpto]

theorem mem_of_mem_eventsUpto {D : Type} (rs : List (StreamResult D)) (k : Nat) (e : Event)
    (h : e ∈ eventsUpto rs k) : e ∈ eventsUpto rs rs.length := by
  unfold eventsUpto at h ⊢
  rw [List.mem_flatten] at h ⊢
  obtain ⟨l, hl, hel⟩ := h
  refine ⟨l, ?_, hel⟩
  rw [List.mem_map] at hl ⊢
  obtain ⟨r, hr, hrl⟩ := hl
  refine ⟨r, ?_, hrl⟩
  rw [List.take_of_length_le (by omega)]
  exact List.mem_of_mem_take hr

theorem runStream_inv {D : Type} (env : Externals D) (hwf : env.WF) :
    ∀ (calls : List (FL2_outBuffer × FL2_inBuffer)) (fds : FL2_DStream D) (h0 : List Event)
      (rs : List (StreamResult D)),
      SessionInv env h0 fds → runStream env fds calls = some rs →
      ∀ (k : Nat) (r : StreamResult D), rs[k]? = some r →
        SessionInv env (h0 ++ eventsUpto rs k) r.fds ∧
        (r.ret = 0 → r.fds.stage = .FL2DEC_STAGE_FINISHED) := by
  intro calls
  induction calls with
  | nil =>
    intro fds h0 rs _ hrun k r hk
    simp only [runStream, Option.some.injEq] at hrun
    subst hrun
    simp at hk
  | cons call rest ih =>
    intro fds h0 rs hi hrun k r hk
    simp only [runStream] at hrun
    split at hrun
    · exact absurd hrun (by simp)
    · rename_i r0 hr0
      split at hrun
      · exact absurd hrun (by simp)
      · rename_i rs1 hrs1
        simp only [Option.some.injEq] at hrun
        subst hrun
        have hi0 := decompressStream_inv env h0 fds call.1 call.2 r0 hr0 hi
        cases k with
        | zero =>
          simp only [List.getElem?_cons_zero, Option.some.injEq] at hk
          subst hk
          rw [eventsUpto_zero]
          refine ⟨hi0, fun hret => ?_⟩
          exact decompressStream_zero_finished env hwf fds call.1 call.2 _ hr0 hret
        | succ k =>
          simp only [List.getElem?_cons_succ] at hk
          rw [eventsUpto_succ, ← List.append_assoc]
          exact ih r0.fds (h0 ++ r0.events) rs1 hi0 hrs1 k r hk

/-- C2. Truncation detection in streaming.  On a stream that `FL2_initDStream` has
just reset, or that `FL2_createDStream` has just created, run any sequence of
`FL2_decompressStream` calls.  If a call returns 0, then by the end of that call
`FLzma2Dec_DecodeToBuf` has reported finished-with-mark in this session and, when
the checksum flag is set, a comparison of the stored checksum with the digest has
found them equal.  If the decoder never reports finished-with-mark, every call
returns a non-zero value. -/
theorem FL2_decompressStream_truncation {D : Type} (env : Externals D) (hwf : env.WF)
    (fds0 fds : FL2_DStream D)
    (hstart : fds = (FL2_initDStream fds0).2 ∨ FL2_createDStream env true = some fds)
    (calls : List (FL2_outBuffer × FL2_inBuffer)) (rs : List (StreamResult D))
    (hrun : runStream env fds calls = some rs) :
    (∀ (k : Nat) (r : StreamResult D), rs[k]? = some r → r.ret = 0 →
      HasMark env (eventsUpto rs k) ∧ (r.fds.do_hash ≠ 0 → HasMatch (eventsUpto rs k))) ∧
    (¬ HasMark env (eventsUpto rs rs.length) → ∀ r ∈ rs, r.ret ≠ 0) := by
  have hstage : fds.stage = .FL2DEC_STAGE_INIT := by
    rcases hstart with h | h
    · rw [h]; rfl
    · simp only [FL2_createDStream, if_true, Option.some.injEq] at h
      rw [← h]
  have hi : SessionInv env [] fds := by
    constructor <;> intro hs <;> rw [hstage] at hs <;> exact absurd hs (by decide)
  have key : ∀ (k : Nat) (r : StreamResult D), rs[k]? = some r → r.ret = 0 →
      HasMark env (eventsUpto rs k) ∧ (r.fds.do_hash ≠ 0 → HasMatch (eventsUpto rs k)) := by
    intro k r hk hret
    obtain ⟨hinv, hfin⟩ := runStream_inv env hwf calls fds [] rs hi hrun k r hk
    rw [List.nil_append] at hinv
    exact hinv.2 (hfin hret)
  refine ⟨key, ?_⟩
  intro hno r hr hret
  obtain ⟨k, hk⟩ := List.mem_iff_getElem?.1 hr
  obtain ⟨⟨a, b, hab⟩, -⟩ := key k r hk hret
  exact hno ⟨a, b, mem_of_mem_eventsUpto rs k _ hab⟩

/-- Witness of C2: the literal decoder on a created stream, fed `81 41 42 00 00` and
then the digest `00 00 08 41`.  The second call returns 0; by then the decoder has
reported finished-with-mark and the comparison has found the checksums equal. -/
theorem FL2_decompressStream_truncation_witness :
    runStream litEnv litFresh [litCall1, litCall2] = some [litResult1, litResult2] ∧
    litResult2.ret = 0 ∧
    HasMark litEnv (eventsUpto [litResult1, litResult2] 1) ∧
    HasMatch (eventsUpto [litResult1, litResult2] 1) :=
  ⟨rfl, rfl,
    ((FL2_decompressStream_truncation litEnv litEnv_wf litFresh litFresh (Or.inr rfl)
      [litCall1, litCall2] [litResult1, litResult2] rfl).1 1 litResult2 rfl rfl).1,
    ((FL2_decompressStream_truncation litEnv litEnv_wf litFresh litFresh (Or.inr rfl)
      [litCall1, litCall2] [litResult1, litResult2] rfl).1 1 litResult2 rfl rfl).2
      (by decide)⟩

/-! ## Digest coverage in streaming -/

theorem size_add_of_lt (w a b : Nat) (h : a + b < 2 ^ w) : size_add w a b = a + b := by
  unfold size_add
  exact Nat.mod_eq_of_lt h

theorem andThen_call2 {D : Type} (P Q : StreamCall D → Prop) (f : Option (Flow D))
    (g : StreamCall D → Option (Flow D))
    (hf : ∀ x, f = some x → P x.call)
    (hpq : ∀ c, P c → Q c)
    (hg : ∀ c x, P c → g c = some x → Q x.call)
    (y : Flow D) (h : Flow.andThen f g = some y) : Q y.call := by
  unfold Flow.andThen at h
  split at h
  · exact absurd h (by simp)
  · cases h; exact hpq _ (hf _ rfl)
  · exact hg _ _ (hf _ rfl) h

theorem stageInit_digest {D : Type} (env : Externals D) (o : FL2_outBuffer) (acc : List BYTE)
    (c : StreamCall D) (f : Flow D) (h : stageInit env c = some f)
    (hc : c.output = o ∧ DigestInv c.fds acc) :
    f.call.output = o ∧ DigestInv f.call.fds acc := by
  unfold stageInit at h
  by_cases h1 : c.fds.stage = .FL2DEC_STAGE_INIT
  · rw [if_pos h1] at h
    have hacc : acc = [] := hc.2.1 h1
    split at h
    · exact absurd h (by simp)
    · dsimp only at h
      split_ifs at h with h2 h3
      · cases h
        exact ⟨hc.1, fun _ => hacc, fun hs => absurd h1 hs⟩
      · split at h
        · cases h
          refine ⟨hc.1, fun hs => ?_, fun _ _ => ?_⟩
          · simp [Flow.call] at hs
          · simp [Flow.call, XXH32_reset, hacc]
        · split at h
          · cases h
            exact ⟨hc.1, fun _ => hacc, fun hs => absurd h1 hs⟩
          · cases h
            refine ⟨hc.1, fun hs => ?_, fun _ _ => ?_⟩
            · simp [Flow.call] at hs
            · simp [Flow.call, XXH32_reset, hacc]
      · cases h
        refine ⟨hc.1, fun hs => ?_, fun _ hd => ?_⟩
        · simp [Flow.call] at hs
        · exact absurd hd (by simpa [Flow.call] using h3)
  · rw [if_neg h1] at h
    cases h
    exact hc

theorem hashUpdate_digest {D : Type} (fds fds2 : FL2_DStream D) (dst : List BYTE)
    (pos n : Nat) (evh : List Event) (h : hashUpdate fds dst pos n = some (fds2, evh)) :
    (fds.do_hash ≠ 0 → ∃ x, fds.xxh = some x ∧
      fds2.xxh = some (XXH32_update x ((dst.drop pos).take n))) ∧
    (fds.do_hash = 0 → fds2.xxh = fds.xxh ∧ evh = []) := by
  unfold hashUpdate at h
  split_ifs at h with h1
  · split at h
    · rename_i x bytes hx hbytes
      unfold readBytes at hbytes
      split_ifs at hbytes
      cases hbytes
      cases h
      exact ⟨fun _ => ⟨x, hx, rfl⟩, fun h0 => absurd h0 h1⟩
    · exact absurd h (by simp)
  · cases h
    simp only [ne_eq, not_not] at h1
    exact ⟨fun h0 => absurd h1 h0, fun _ => ⟨rfl, rfl⟩⟩

theorem stageDecomp_digest {D : Type} (env : Externals D) (hdec : DecoderBounded env)
    (o : FL2_outBuffer) (ho : o.WF env.w) (acc : List BYTE)
    (c : StreamCall D) (f : Flow D) (h : stageDecomp env c = some f)
    (hc : c.output = o ∧ DigestInv c.fds acc) :
    DigestInv f.call.fds (acc ++ writtenCall o f.call) := by
  unfold stageDecomp at h
  by_cases h1 : c.fds.stage = .FL2DEC_STAGE_DECOMP
  · rw [if_pos h1] at h
    dsimp only at h
    split at h
    · exact absurd h (by simp)
    · rename_i fds2 evh hupd
      obtain ⟨hst, hdh, -⟩ := hashUpdate_frame _ _ _ _ _ _ hupd
      obtain ⟨hyes, -⟩ := hashUpdate_digest _ _ _ _ _ _ hupd
      simp only at hst hdh hyes
      have ho2 : c.output.pos ≤ c.output.size ∧ c.output.size < 2 ^ env.w := by
        rw [hc.1]; exact ho
      have hbound : (streamDecode env c).destLen ≤ o.size - o.pos := by
        have hd := hdec c.fds.dec (c.output.dst.drop c.output.pos)
          (size_sub env.w c.output.size c.output.pos) (c.input.src.drop c.input.pos)
          (size_sub env.w c.input.size c.input.pos) .LZMA_FINISH_ANY
        rw [← hc.1]
        exact le_of_le_of_eq hd (size_sub_of_le _ _ _ ho2.1 ho2.2)
      have hpos : size_add env.w c.output.pos (streamDecode env c).destLen
          = o.pos + (streamDecode env c).destLen := by
        rw [hc.1]
        exact size_add_of_lt _ _ _ (by have := ho.1; have := ho.2; omega)
      have hxxh : fds2.do_hash ≠ 0 → fds2.xxh = some (XXH32_state_t.mk 0 (acc ++
          ((c.output.dst.take c.output.pos ++ (streamDecode env c).dest).drop o.pos).take
            (streamDecode env c).destLen)) := by
        intro hd
        rw [hdh] at hd
        obtain ⟨x, hx, hx2⟩ := hyes hd
        have hacc := hc.2.2 (by rw [h1]; decide) hd
        rw [hx] at hacc
        cases hacc
        rw [hx2, hc.1]
        rfl
      have hgoal : ∀ st : DecoderStage, st ≠ .FL2DEC_STAGE_INIT →
          DigestInv ({ fds2 with stage := st }) (acc ++
            ((c.output.dst.take c.output.pos ++ (streamDecode env c).dest).drop o.pos).take
              (o.pos + (streamDecode env c).destLen - o.pos)) := by
        intro st hne
        rw [Nat.add_sub_cancel_left]
        exact ⟨fun hs => absurd hs hne, fun _ hd => hxxh hd⟩
      split_ifs at h with h2 h3 h4
      · cases h
        simp only [Flow.call, writtenCall, hpos]
        exact hgoal fds2.stage (by rw [hst, h1]; decide)
      · cases h
        simp only [Flow.call, writtenCall, hpos]
        exact hgoal _ (by decide)
      · cases h
        simp only [Flow.call, writtenCall, hpos]
        exact hgoal _ (by decide)
      · cases h
        simp only [Flow.call, writtenCall, hpos]
        exact hgoal fds2.stage (by rw [hst, h1]; decide)
  · rw [if_neg h1] at h
    cases h
    simp only [Flow.call, writtenCall, hc.1, Nat.sub_self, List.take_zero, List.append_nil]
    exact hc.2

theorem stageHash_digest {D : Type} (env : Externals D) (o : FL2_outBuffer) (acc : List BYTE)
    (c : StreamCall D) (f : Flow D) (h : stageHash env c = some f)
    (hc : DigestInv c.fds (acc ++ writtenCall o c)) :
    DigestInv f.call.fds (acc ++ writtenCall o f.call) := by
  unfold stageHash at h
  by_cases h1 : c.fds.stage = .FL2DEC_STAGE_HASH
  · rw [if_pos h1] at h
    split_ifs at h with h2
    · cases h; exact hc
    · split at h
      · dsimp only at h
        split_ifs at h with h3
        · cases h; exact hc
        · cases h
          refine ⟨fun hs => ?_, fun _ hd => ?_⟩
          · simp [Flow.call] at hs
          · exact hc.2 (by rw [h1]; decide) hd
      · exact absurd h (by simp)
  · rw [if_neg h1] at h
    cases h
    exact hc

theorem writtenCall_same {D : Type} (o : FL2_outBuffer) (c : StreamCall D) (h : c.output = o) :
    writtenCall o c = [] := by
  simp [writtenCall, h]

theorem decompressStream_digest {D : Type} (env : Externals D) (hdec : DecoderBounded env)
    (fds : FL2_DStream D) (output : FL2_outBuffer) (input : FL2_inBuffer) (r : StreamResult D)
    (acc : List BYTE) (ho : output.WF env.w)
    (h : FL2_decompressStream env fds output input = some r) (hi : DigestInv fds acc) :
    DigestInv r.fds (acc ++ written output r) := by
  unfold FL2_decompressStream at h
  split_ifs at h with hp
  · obtain ⟨x, hx, hfds, hout, -, -⟩ := finish_call _ _ h
    have hw : written output r = writtenCall output x.call := by
      simp only [written, writtenCall, hout]
    rw [hfds, hw]
    refine andThen_call (fun c => DigestInv c.fds (acc ++ writtenCall output c)) _ _ ?_
      (fun c y hc hy => stageHash_digest env output acc c y hy hc) x hx
    intro y hy
    refine andThen_call2 (fun c => c.output = output ∧ DigestInv c.fds acc)
      (fun c => DigestInv c.fds (acc ++ writtenCall output c)) _ _ ?_ ?_
      (fun c z hc hz => stageDecomp_digest env hdec output ho acc c z hz hc) y hy
    · intro z hz
      exact stageInit_digest env output acc _ z hz ⟨rfl, hi⟩
    · intro c hc
      rw [writtenCall_same output c hc.1, List.append_nil]
      exact hc.2
  · cases h
    simpa [stageReturn, written] using hi

theorem runStream_digest {D : Type} (env : Externals D) (hdec : DecoderBounded env) :
    ∀ (calls : List (FL2_outBuffer × FL2_inBuffer)) (fds : FL2_DStream D) (acc : List BYTE)
      (rs : List (StreamResult D)),
      DigestInv fds acc → (∀ call ∈ calls, call.1.WF env.w) →
      runStream env fds calls = some rs →
      DigestInv (runFinal fds rs) (acc ++ runWritten calls rs) := by
  intro calls
  induction calls with
  | nil =>
    intro fds acc rs hi _ hrun
    simp only [runStream, Option.some.injEq] at hrun
    subst hrun
    simpa [runFinal, runWritten] using hi
  | cons call rest ih =>
    intro fds acc rs hi hwf hrun
    simp only [runStream] at hrun
    split at hrun
    · exact absurd hrun (by simp)
    · rename_i r0 hr0
      split at hrun
      · exact absurd hrun (by simp)
      · rename_i rs1 hrs1
        simp only [Option.some.injEq] at hrun
        subst hrun
        have h0 := decompressStream_digest env hdec fds call.1 call.2 r0 acc
          (hwf call (List.mem_cons_self _ _)) hr0 hi
        have h1 := ih r0.fds (acc ++ written call.1 r0) rs1 h0
          (fun c hc => hwf c (List.mem_cons_of_mem _ hc)) hrs1
        simpa [runFinal, runWritten, List.append_assoc] using h1

theorem stageInit_clear {D : Type} (env : Externals D) (x0 : Option XXH32_state_t)
    (c : StreamCall D) (f : Flow D) (h : stageInit env c = some f)
    (hc : c.fds.xxh = x0 ∧ ∀ e ∈ c.events, e.writesDigest = false) :
    f.call.fds.do_hash = 0 →
      f.call.fds.xxh = x0 ∧ ∀ e ∈ f.call.events, e.writesDigest = false := by
  unfold stageInit at h
  by_cases h1 : c.fds.stage = .FL2DEC_STAGE_INIT
  · rw [if_pos h1] at h
    split at h
    · exact absurd h (by simp)
    · dsimp only at h
      have hev : ∀ (p k : Nat), ∀ e ∈ c.events ++ [Event.decInit p k],
          e.writesDigest = false := by
        intro p k e he
        rcases List.mem_append.1 he with he | he
        · exact hc.2 e he
        · rw [List.mem_singleton.1 he]; rfl
      split_ifs at h with h2 h3
      · cases h
        intro _
        exact ⟨hc.1, hev _ _⟩
      · split at h
        · cases h
          intro hd
          exact absurd hd h3
        · split at h
          · cases h
            intro hd
            exact absurd hd h3
          · cases h
            intro hd
            exact absurd hd h3
      · cases h
        intro _
        exact ⟨hc.1, hev _ _⟩
  · rw [if_neg h1] at h
    cases h
    intro _
    exact hc

theorem stageDecomp_clear {D : Type} (env : Externals D) (x0 : Option XXH32_state_t)
    (c : StreamCall D) (f : Flow D) (h : stageDecomp env c = some f)
    (hc : c.fds.do_hash = 0 → c.fds.xxh = x0 ∧ ∀ e ∈ c.events, e.writesDigest = false) :
    f.call.fds.do_hash = 0 →
      f.call.fds.xxh = x0 ∧ ∀ e ∈ f.call.events, e.writesDigest = false := by
  unfold stageDecomp at h
  by_cases h1 : c.fds.stage = .FL2DEC_STAGE_DECOMP
  · rw [if_pos h1] at h
    dsimp only at h
    split at h
    · exact absurd h (by simp)
    · rename_i fds2 evh hupd
      obtain ⟨-, hdh, -⟩ := hashUpdate_frame _ _ _ _ _ _ hupd
      obtain ⟨-, hno⟩ := hashUpdate_digest _ _ _ _ _ _ hupd
      simp only at hdh hno
      have key : fds2.do_hash = 0 → fds2.xxh = x0 ∧
          ∀ e ∈ c.events ++ [Event.decode (streamDecode env c).res (streamDecode env c).destLen
            (streamDecode env c).srcLen] ++ evh, e.writesDigest = false := by
        intro hd
        rw [hdh] at hd
        obtain ⟨hx, hevh⟩ := hno hd
        obtain ⟨hx0, hev0⟩ := hc hd
        refine ⟨hx.trans hx0, ?_⟩
        intro e he
        rw [hevh, List.append_nil] at he
        rcases List.mem_append.1 he with he | he
        · exact hev0 e he
        · rw [List.mem_singleton.1 he]; rfl
      split_ifs at h <;> cases h <;> exact key
  · rw [if_neg h1] at h
    cases h
    exact hc

theorem stageHash_clear {D : Type} (env : Externals D) (x0 : Option XXH32_state_t)
    (c : StreamCall D) (f : Flow D) (h : stageHash env c = some f)
    (hc : c.fds.do_hash = 0 → c.fds.xxh = x0 ∧ ∀ e ∈ c.events, e.writesDigest = false) :
    f.call.fds.do_hash = 0 →
      f.call.fds.xxh = x0 ∧ ∀ e ∈ f.call.events, e.writesDigest = false := by
  unfold stageHash at h
  by_cases h1 : c.fds.stage = .FL2DEC_STAGE_HASH
  · rw [if_pos h1] at h
    split_ifs at h with h2
    · cases h; exact hc
    · split at h
      · dsimp only at h
        have key : ∀ (a b : Nat), c.fds.do_hash = 0 → c.fds.xxh = x0 ∧
            ∀ e ∈ c.events ++ [Event.compare a b], e.writesDigest = false := by
          intro a b hd
          obtain ⟨hx0, hev0⟩ := hc hd
          refine ⟨hx0, ?_⟩
          intro e he
          rcases List.mem_append.1 he with he | he
          · exact hev0 e he
          · rw [List.mem_singleton.1 he]; rfl
        split_ifs at h <;> cases h <;> exact key _ _
      · exact absurd h (by simp)
  · rw [if_neg h1] at h
    cases h
    exact hc

theorem decompressStream_clear {D : Type} (env : Externals D)
    (fds : FL2_DStream D) (output : FL2_outBuffer) (input : FL2_inBuffer) (r : StreamResult D)
    (h : FL2_decompressStream env fds output input = some r) (hd : r.fds.do_hash = 0) :
    r.fds.xxh = fds.xxh ∧ ∀ e ∈ r.events, e.writesDigest = false := by
  unfold FL2_decompressStream at h
  split_ifs at h with hp
  · obtain ⟨x, hx, hfds, -, -, hev⟩ := finish_call _ _ h
    rw [hfds, hev]
    rw [hfds] at hd
    refine andThen_call (fun c => c.fds.do_hash = 0 →
        c.fds.xxh = fds.xxh ∧ ∀ e ∈ c.events, e.writesDigest = false) _ _ ?_
      (fun c y hc hy => stageHash_clear env fds.xxh c y hy hc) x hx hd
    intro y hy
    refine andThen_call (fun c => c.fds.do_hash = 0 →
        c.fds.xxh = fds.xxh ∧ ∀ e ∈ c.events, e.writesDigest = false) _ _ ?_
      (fun c z hc hz => stageDecomp_clear env fds.xxh c z hz hc) y hy
    intro z hz
    exact stageInit_clear env fds.xxh _ z hz ⟨rfl, by simp⟩
  · cases h
    simp [stageReturn]

theorem litDecodeAny_length (src : List BYTE) :
    ∀ cap : Nat, (litDecodeAny src cap).2.1.length ≤ cap := by
  induction src with
  | nil =>
    intro cap
    cases cap <;> simp [litDecodeAny]
  | cons b rest ih =>
    intro cap
    cases cap with
    | zero => simp [litDecodeAny]
    | succ cap =>
      simp only [litDecodeAny]
      split_ifs
      · simp
      · have := ih cap
        simp only [List.length_cons]
        omega

theorem litEnv_bounded : DecoderBounded litEnv := by
  intro d dest destLen src srcLen mode
  show (if d.finished then _ else _ : BufResult LitDec).destLen ≤ destLen
  split_ifs
  · exact Nat.zero_le _
  · exact litDecodeAny_length _ _

/-- C5. Digest coverage.  On a stream that `FL2_initDStream` has just reset, or that
`FL2_createDStream` has just created, run any sequence of `FL2_decompressStream`
calls with output cursors inside their buffers.  Once the property byte has been
parsed with the checksum flag set, the accumulator holds seed 0 and exactly the
concatenation, in call order, of the bytes `output[pos_before, pos_after)` of the
calls, each once.  And a call that leaves the checksum flag clear leaves the
accumulator as it found it and makes no reset or update call. -/
theorem FL2_decompressStream_digest_coverage {D : Type} (env : Externals D)
    (hdec : DecoderBounded env) (fds0 fds : FL2_DStream D)
    (hstart : fds = (FL2_initDStream fds0).2 ∨ FL2_createDStream env true = some fds)
    (calls : List (FL2_outBuffer × FL2_inBuffer)) (rs : List (StreamResult D))
    (hwf : ∀ call ∈ calls, call.1.WF env.w)
    (hrun : runStream env fds calls = some rs) :
    ((runFinal fds rs).stage ≠ .FL2DEC_STAGE_INIT → (runFinal fds rs).do_hash ≠ 0 →
      (runFinal fds rs).xxh = some { seed := 0, fed := runWritten calls rs }) ∧
    (∀ (s : FL2_DStream D) (output : FL2_outBuffer) (input : FL2_inBuffer) (r : StreamResult D),
      FL2_decompressStream env s output input = some r → r.fds.do_hash = 0 →
      r.fds.xxh = s.xxh ∧ ∀ e ∈ r.events, e.writesDigest = false) := by
  have hstage : fds.stage = .FL2DEC_STAGE_INIT := by
    rcases hstart with h | h
    · rw [h]; rfl
    · simp only [FL2_createDStream, if_true, Option.some.injEq] at h
      rw [← h]
  have hi : DigestInv fds [] := ⟨fun _ => rfl, fun hs => absurd hstage hs⟩
  have h := runStream_digest env hdec calls fds [] rs hi hwf hrun
  rw [List.nil_append] at h
  exact ⟨h.2, fun s output input r hr hd => decompressStream_clear env s output input r hr hd⟩

/-- Witness of C5: the literal decoder on `81 41 42 00`; the accumulator ends up
holding the two bytes `A` `B` that the call wrote. -/
theorem FL2_decompressStream_digest_coverage_witness :
    runStream litEnv litFresh [(litOut4, litInFlagged)] = some [litResultFlagged] ∧
    runWritten [(litOut4, litInFlagged)] [litResultFlagged] = [0x41, 0x42] ∧
    (runFinal litFresh [litResultFlagged]).xxh = some { seed := 0, fed := [0x41, 0x42] } :=
  ⟨rfl, rfl,
    (FL2_decompressStream_digest_coverage litEnv litEnv_bounded litFresh litFresh (Or.inr rfl)
      [(litOut4, litInFlagged)] [litResultFlagged]
      (by intro call hc; rw [List.mem_singleton.1 hc]; exact ⟨by decide, by decide⟩)
      rfl).1 (by decide) (by decide)⟩

/-! ## Reusing a stream -/

theorem andThen_sim {D : Type} (fa fb : Option (Flow D))
    (g : StreamCall D → Option (Flow D)) (h : SimFlow fa fb)
    (hg : ∀ ca cb, SimCall ca cb → SimFlow (g ca) (g cb)) :
    SimFlow (Flow.andThen fa g) (Flow.andThen fb g) := by
  match fa, fb, h with
  | none, none, _ => trivial
  | some (.ret ka ca), some (.ret kb cb), h => exact h
  | some (.next ca), some (.next cb), h => exact hg ca cb h

theorem finish_sim {D : Type} (fa fb : Option (Flow D)) (h : SimFlow fa fb) :
    SimResult (Flow.finish fa) (Flow.finish fb) := by
  match fa, fb, h with
  | none, none, _ => trivial
  | some (.ret ka ca), some (.ret kb cb), h =>
    obtain ⟨hk, hs, ho, hi⟩ := h
    exact ⟨by simp [StreamResult.observed, hk, ho, hi], hs⟩
  | some (.next ca), some (.next cb), h =>
    obtain ⟨hs, ho, hi⟩ := h
    exact ⟨by simp [StreamResult.observed, stageReturn, hs.1, ho, hi], hs⟩

theorem stageInit_sim {D : Type} (env : Externals D)
    (hreset : ∀ d d2 prop, env.FLzma2Dec_Init d prop none 0 = env.FLzma2Dec_Init d2 prop none 0)
    (halloc : env.XXH32_createState ≠ none)
    (ca cb : StreamCall D) (h : SimCall ca cb) :
    SimFlow (stageInit env ca) (stageInit env cb) := by
  obtain ⟨⟨hst, hrest⟩, ho, hi⟩ := h
  obtain ⟨x, hx⟩ : ∃ x, env.XXH32_createState = some x := Option.ne_none_iff_exists'.1 halloc
  unfold stageInit
  by_cases h1 : ca.fds.stage = .FL2DEC_STAGE_INIT
  · have h1b : cb.fds.stage = .FL2DEC_STAGE_INIT := hst ▸ h1
    rw [if_pos h1, if_pos h1b, ← hi, ← ho]
    cases hget : ca.input.src.get? ca.input.pos with
    | none => trivial
    | some b =>
      dsimp only
      rw [hreset cb.fds.dec ca.fds.dec (propLzma env b)]
      by_cases h2 : env.FL2_isError (env.FLzma2Dec_Init ca.fds.dec
          (propLzma env b) none 0).1 = true
      · rw [if_pos h2, if_pos h2]
        exact ⟨rfl, ⟨h1.trans h1b.symm, fun hs => absurd h1 hs⟩, rfl, rfl⟩
      · rw [if_neg h2, if_neg h2]
        by_cases h3 : propHash b ≠ 0
        · rw [if_pos h3, if_pos h3]
          cases hxa : ca.fds.xxh <;> cases hxb : cb.fds.xxh <;>
            simp [hx, SimFlow, SimCall, Sim, XXH32_reset]
        · rw [if_neg h3, if_neg h3]
          simp only [ne_eq, not_not] at h3
          simp [SimFlow, SimCall, Sim, h3]
  · have h1b : ¬ cb.fds.stage = .FL2DEC_STAGE_INIT := hst ▸ h1
    rw [if_neg h1, if_neg h1b]
    exact ⟨⟨hst, hrest⟩, ho, hi⟩

theorem streamDecode_congr {D : Type} (env : Externals D) (ca cb : StreamCall D)
    (hd : ca.fds.dec = cb.fds.dec) (ho : ca.output = cb.output) (hi : ca.input = cb.input) :
    streamDecode env ca = streamDecode env cb := by
  unfold streamDecode
  rw [hd, ho, hi]

theorem stageDecomp_sim {D : Type} (env : Externals D)
    (ca cb : StreamCall D) (h : SimCall ca cb) :
    SimFlow (stageDecomp env ca) (stageDecomp env cb) := by
  obtain ⟨⟨hst, hrest⟩, ho, hi⟩ := h
  unfold stageDecomp
  by_cases h1 : ca.fds.stage = .FL2DEC_STAGE_DECOMP
  · have h1b : cb.fds.stage = .FL2DEC_STAGE_DECOMP := hst ▸ h1
    obtain ⟨hdec, hdh, hxx, -⟩ := hrest (by rw [h1]; decide)
    rw [if_pos h1, if_pos h1b, ← streamDecode_congr env ca cb hdec ho hi, ← ho, ← hi]
    dsimp only
    unfold hashUpdate
    rw [← hdh]
    by_cases h2 : ca.fds.do_hash = 0
    · simp only [h2, ne_eq, not_true_eq_false, if_false]
      split_ifs <;> simp [SimFlow, SimCall, Sim, h1, h1b, h2, hdh.symm]
    · have hx := hxx h2
      simp only [ne_eq, h2, not_false_eq_true, if_true, ← hx]
      cases hxa : ca.fds.xxh with
      | none => trivial
      | some x =>
        cases hread : readBytes (ca.output.dst.take ca.output.pos ++ (streamDecode env ca).dest)
            ca.output.pos (streamDecode env ca).destLen with
        | none => trivial
        | some bytes =>
          simp only
          split_ifs <;> simp [SimFlow, SimCall, Sim, h1, h1b, h2, hdh.symm]
  · have h1b : ¬ cb.fds.stage = .FL2DEC_STAGE_DECOMP := hst ▸ h1
    rw [if_neg h1, if_neg h1b]
    exact ⟨⟨hst, hrest⟩, ho, hi⟩

theorem stageHash_sim {D : Type} (env : Externals D)
    (ca cb : StreamCall D) (h : SimCall ca cb) :
    SimFlow (stageHash env ca) (stageHash env cb) := by
  obtain ⟨⟨hst, hrest⟩, ho, hi⟩ := h
  unfold stageHash
  by_cases h1 : ca.fds.stage = .FL2DEC_STAGE_HASH
  · have h1b : cb.fds.stage = .FL2DEC_STAGE_HASH := hst ▸ h1
    obtain ⟨hdec, hdh, hxx, hflag⟩ := hrest (by rw [h1]; decide)
    have hx := hxx (hflag h1)
    rw [if_pos h1, if_pos h1b, ← hi, ← hx]
    by_cases h2 : size_sub env.w ca.input.size ca.input.pos < XXHASH_SIZEOF
    · rw [if_pos h2, if_pos h2]
      exact ⟨rfl, ⟨hst, hrest⟩, ho, hi⟩
    · rw [if_neg h2, if_neg h2]
      cases hread : readBytes ca.input.src ca.input.pos XXHASH_SIZEOF with
      | none => trivial
      | some canonical =>
        cases hxa : ca.fds.xxh with
        | none => trivial
        | some x =>
          simp only
          split_ifs
          · exact ⟨rfl, ⟨hst, hrest⟩, ho, rfl⟩
          · refine ⟨⟨rfl, fun _ => ⟨hdec, hdh, hxx, fun hs => ?_⟩⟩, ho, rfl⟩
            exact absurd hs (by simp)
  · have h1b : ¬ cb.fds.stage = .FL2DEC_STAGE_HASH := hst ▸ h1
    rw [if_neg h1, if_neg h1b]
    exact ⟨⟨hst, hrest⟩, ho, hi⟩

theorem decompressStream_sim {D : Type} (env : Externals D)
    (hreset : ∀ d d2 prop, env.FLzma2Dec_Init d prop none 0 = env.FLzma2Dec_Init d2 prop none 0)
    (halloc : env.XXH32_createState ≠ none)
    (a b : FL2_DStream D) (h : Sim a b) (output : FL2_outBuffer) (input : FL2_inBuffer) :
    SimResult (FL2_decompressStream env a output input)
      (FL2_decompressStream env b output input) := by
  unfold FL2_decompressStream
  dsimp only
  split_ifs with hp
  · refine finish_sim _ _ (andThen_sim _ _ _ (andThen_sim _ _ _ ?_ ?_) ?_)
    · exact stageInit_sim env hreset halloc _ _ ⟨h, rfl, rfl⟩
    · exact fun ca cb hc => stageDecomp_sim env ca cb hc
    · exact fun ca cb hc => stageHash_sim env ca cb hc
  · exact ⟨by simp [StreamResult.observed, stageReturn, h.1], h⟩

theorem runStream_sim {D : Type} (env : Externals D)
    (hreset : ∀ d d2 prop, env.FLzma2Dec_Init d prop none 0 = env.FLzma2Dec_Init d2 prop none 0)
    (halloc : env.XXH32_createState ≠ none) :
    ∀ (calls : List (FL2_outBuffer × FL2_inBuffer)) (a b : FL2_DStream D), Sim a b →
      (runStream env a calls).map (List.map StreamResult.observed)
        = (runStream env b calls).map (List.map StreamResult.observed) := by
  intro calls
  induction calls with
  | nil => intro a b _; rfl
  | cons call rest ih =>
    intro a b h
    have hs := decompressStream_sim env hreset halloc a b h call.1 call.2
    simp only [runStream]
    cases ha : FL2_decompressStream env a call.1 call.2 with
    | none =>
      cases hb : FL2_decompressStream env b call.1 call.2 with
      | none => rfl
      | some rb => rw [ha, hb] at hs; exact absurd hs (by simp [SimResult])
    | some ra =>
      cases hb : FL2_decompressStream env b call.1 call.2 with
      | none => rw [ha, hb] at hs; exact absurd hs (by simp [SimResult])
      | some rb =>
        rw [ha, hb] at hs
        obtain ⟨hobs, hsim⟩ := hs
        have hrest := ih ra.fds rb.fds hsim
        simp only
        cases hra : runStream env ra.fds rest with
        | none =>
          cases hrb : runStream env rb.fds rest with
          | none => rfl
          | some lb => rw [hra, hrb] at hrest; exact absurd hrest (by simp)
        | some la =>
          cases hrb : runStream env rb.fds rest with
          | none => rw [hra, hrb] at hrest; exact absurd hrest (by simp)
          | some lb =>
            rw [hra, hrb] at hrest
            simp only [Option.map_some', Option.some.injEq] at hrest
            simp only [Option.map_some', List.map_cons, hobs, hrest]

/-- C9. Idempotent lifecycle.  When `FLzma2Dec_Init` leaves a result that does not
depend on the state it is given and `XXH32_createState` succeeds, any stream
(whatever its stage, checksum flag, accumulator and decoder state) on which
`FL2_initDStream` is called behaves as a stream just returned by
`FL2_createDStream`: on every sequence of cursor pairs the two runs are defined
together and give the same returned values and the same output and input cursors
and buffers, call by call. -/
theorem FL2_initDStream_as_created {D : Type} (env : Externals D)
    (hreset : ∀ d d2 prop, env.FLzma2Dec_Init d prop none 0 = env.FLzma2Dec_Init d2 prop none 0)
    (halloc : env.XXH32_createState ≠ none)
    (fds created : FL2_DStream D) (hcreated : FL2_createDStream env true = some created)
    (calls : List (FL2_outBuffer × FL2_inBuffer)) :
    (runStream env (FL2_initDStream fds).2 calls).map (List.map StreamResult.observed)
      = (runStream env created calls).map (List.map StreamResult.observed) := by
  refine runStream_sim env hreset halloc calls _ _ ⟨?_, fun hs => absurd rfl hs⟩
  simp only [FL2_createDStream, if_true, Option.some.injEq] at hcreated
  rw [← hcreated]
  rfl

/-- Witness of C9: a stream of the literal decoder left in stage `Hash` with a loaded
accumulator is reset and fed `81 41 42 00`; it answers as a created stream does. -/
theorem FL2_initDStream_as_created_witness :
    (runStream litEnv (FL2_initDStream litHashing).2 [(litOut4, litInFlagged)]).map
        (List.map StreamResult.observed)
      = some [(1, { dst := [0x41, 0x42, 0, 0], size := 4, pos := 2 },
                  { src := [0x81, 0x41, 0x42, 0x00], size := 4, pos := 4 })] ∧
    (runStream litEnv (FL2_initDStream litHashing).2 [(litOut4, litInFlagged)]).map
        (List.map StreamResult.observed)
      = (runStream litEnv litFresh [(litOut4, litInFlagged)]).map
        (List.map StreamResult.observed) :=
  ⟨rfl, FL2_initDStream_as_created litEnv (fun _ _ _ => rfl) (by simp [litEnv]) litHashing
    litFresh rfl [(litOut4, litInFlagged)]⟩

/-! ## Streaming equivalence -/

/-- C11. When the input cursor has no unread byte on entry (`input->pos >= input->size`),
`FL2_decompressStream` makes no call to the chunk decoder or the digest (the list of
external calls is empty) and leaves the stream (stage, checksum flag, digest
accumulator, decoder state), both cursors and the output memory as they were; it
returns 1, which is no error code, in the stages `Init`, `Decomp` and `Hash`, and 0 in
the stage `Finished`. -/
theorem FL2_decompressStream_no_input {D : Type} (env : Externals D) (hwf : env.WF)
    (fds : FL2_DStream D) (output : FL2_outBuffer) (input : FL2_inBuffer)
    (hempty : input.size ≤ input.pos) :
    FL2_decompressStream env fds output input =
      some { ret := if fds.stage = .FL2DEC_STAGE_FINISHED then 0 else 1,
             fds := fds, output := output, input := input, events := [] } ∧
    (fds.stage = .FL2DEC_STAGE_INIT ∨ fds.stage = .FL2DEC_STAGE_DECOMP ∨
        fds.stage = .FL2DEC_STAGE_HASH →
      FL2_decompressStream env fds output input =
        some { ret := 1, fds := fds, output := output, input := input, events := [] }) ∧
    env.FL2_isError 1 = false := by
  have hp : ¬ input.pos < input.size := by omega
  have h1 : FL2_decompressStream env fds output input =
      some { ret := if fds.stage = .FL2DEC_STAGE_FINISHED then 0 else 1,
             fds := fds, output := output, input := input, events := [] } := by
    unfold FL2_decompressStream
    simp only [hp, if_false, stageReturn]
  refine ⟨h1, ?_, hwf.ok_one⟩
  intro hs
  rw [h1]
  have hne : ¬ fds.stage = .FL2DEC_STAGE_FINISHED := by
    rcases hs with h | h | h <;> rw [h] <;> decide
  simp only [hne, if_false]

/-- C11 at an instance: a stream in stage `Decomp`, four bytes of output space, and an
input buffer read to its end. -/
theorem FL2_decompressStream_no_input_witness :
    litInDone.size ≤ litInDone.pos ∧
    FL2_decompressStream litEnv litDecoding litOut4 litInDone =
      some { ret := 1, fds := litDecoding, output := litOut4, input := litInDone,
             events := [] } :=
  ⟨by decide,
   (FL2_decompressStream_no_input litEnv litEnv_wf litDecoding litOut4 litInDone
      (by decide)).2.1 (Or.inr (Or.inl rfl))⟩

/-- C12. In the stage `Hash` with fewer than four unread input bytes,
`FL2_decompressStream` returns 1, which is no error code, makes no external call, and
leaves the stream (so the stage `Hash` and the digest accumulator) and both cursors as
they were; a later call on the stream it leaves, given at least four unread bytes,
compares the stored checksum read at the input position with the digest of the
accumulator. -/
theorem FL2_decompressStream_hash_short {D : Type} (env : Externals D) (hwf : env.WF)
    (fds : FL2_DStream D) (output : FL2_outBuffer) (input : FL2_inBuffer)
    (hst : fds.stage = .FL2DEC_STAGE_HASH)
    (hshort : input.size < input.pos + 4) (hsz : input.size < 2 ^ env.w) :
    ∃ r, FL2_decompressStream env fds output input = some r ∧
      r.ret = 1 ∧ env.FL2_isError r.ret = false ∧ r.fds = fds ∧
      r.fds.stage = .FL2DEC_STAGE_HASH ∧ r.fds.xxh = fds.xxh ∧
      r.input = input ∧ r.output = output ∧ r.events = [] ∧
      ∀ (x : XXH32_state_t) (output2 : FL2_outBuffer) (later : FL2_inBuffer),
        fds.xxh = some x →
        later.pos + 4 ≤ later.size → later.size ≤ later.src.length →
        later.size < 2 ^ env.w →
        ∃ r2, FL2_decompressStream env r.fds output2 later = some r2 ∧
          r2.events = [Event.compare
            (env.XXH32_hashFromCanonical ((later.src.drop later.pos).take 4))
            (XXH32_digest env x)] := by
  have hcall : FL2_decompressStream env fds output input =
      some { ret := 1, fds := fds, output := output, input := input, events := [] } := by
    by_cases hp : input.pos < input.size
    · have hsub : size_sub env.w input.size input.pos < XXHASH_SIZEOF := by
        rw [size_sub_of_le env.w input.size input.pos (Nat.le_of_lt hp) hsz]
        unfold XXHASH_SIZEOF
        omega
      unfold FL2_decompressStream
      rw [if_pos hp]
      simp only [stageInit, stageDecomp, stageHash, Flow.andThen, Flow.finish, hst, hsub,
        if_false, if_true, reduceCtorEq]
    · have hne : ¬ fds.stage = .FL2DEC_STAGE_FINISHED := by rw [hst]; decide
      unfold FL2_decompressStream
      simp only [hp, if_false, stageReturn, hne]
  refine ⟨_, hcall, rfl, hwf.ok_one, rfl, hst, rfl, rfl, rfl, rfl, ?_⟩
  intro x output2 later hx hun hmem hlsz
  refine ⟨_, decompressStream_hash env fds x output2 later hst hx hun hmem hlsz, ?_⟩
  split_ifs <;> rfl

/-- C12 at an instance: the stream `litHashing` offered two of the four digest bytes. -/
theorem FL2_decompressStream_hash_short_witness :
    litInHalfSum.size < litInHalfSum.pos + 4 ∧
    FL2_decompressStream litEnv litHashing litOut4 litInHalfSum =
      some { ret := 1, fds := litHashing, output := litOut4, input := litInHalfSum,
             events := [] } ∧
    ∃ r, FL2_decompressStream litEnv litHashing litOut4 litInHalfSum = some r ∧ r.ret = 1 :=
  ⟨by decide, rfl,
   (FL2_decompressStream_hash_short litEnv litEnv_wf litHashing
      litOut4 litInHalfSum rfl (by decide) (by decide)).imp
     (fun _ h => ⟨h.1, h.2.1⟩)⟩

/-- C13. The stage `Hash` reads the four checksum bytes without advancing the input
position: on the stream `81 41 42 00 00 00 08 41` the first call consumes the property
byte and the three chunk bytes (position 0 to 4), and the second call, given the four
checksum bytes, verifies them, reaches the stage `Finished` and returns 0 with the
input position still 0; the positions of the session advanced by 4 in all, the stream
layout is 8 bytes long. -/
theorem FL2_decompressStream_checksum_not_consumed :
    runStream litEnv litFresh [litCall1, litCall2] = some [litResult1, litResult2] ∧
    litResult1.input.pos = litCall1.2.pos + 4 ∧
    litResult2.events = [Event.compare 2113 2113] ∧
    litResult2.ret = 0 ∧
    litResult2.fds.stage = .FL2DEC_STAGE_FINISHED ∧
    litResult2.input.pos = litCall2.2.pos ∧
    (litResult1.input.pos - litCall1.2.pos) + (litResult2.input.pos - litCall2.2.pos) = 4 ∧
    litSum.length = 8 :=
  ⟨rfl, rfl, rfl, rfl, rfl, rfl, rfl, rfl⟩

/-! ## The property byte on both paths -/

theorem propHash_eq (p : BYTE) : propHash p = p.val / 128 := by
  unfold propHash FL2_PROP_HASH_BIT
  rw [Nat.shiftRight_eq_div_pow]
  have := p.isLt
  omega

theorem propLzma_eq {D : Type} (env : Externals D) (hmask : env.FL2_LZMA_PROP_MASK = 0x3F)
    (p : BYTE) : propLzma env p = p.val % 64 := by
  unfold propLzma
  rw [hmask]
  have h := Nat.and_pow_two_sub_one_eq_mod p.val 6
  norm_num at h
  rw [h]
  omega

/-- The stage `Init` stores the flag of the byte it reads and starts the list of
external calls with the call of `FLzma2Dec_Init` on the masked byte. -/
theorem stageInit_prop {D : Type} (env : Externals D) (c : StreamCall D) (p : BYTE) (f : Flow D)
    (hst : c.fds.stage = .FL2DEC_STAGE_INIT) (hp : c.input.src.get? c.input.pos = some p)
    (hev : c.events = []) (h : stageInit env c = some f) :
    f.call.fds.do_hash = propHash p ∧
    ∃ rest, f.call.events =
      Event.decInit (propLzma env p) (env.FLzma2Dec_Init c.fds.dec (propLzma env p) none 0).1
        :: rest := by
  unfold stageInit at h
  rw [if_pos hst, hp, hev] at h
  dsimp only at h
  split_ifs at h
  · cases h; exact ⟨rfl, [], rfl⟩
  · split at h
    · cases h; exact ⟨rfl, _, rfl⟩
    · split at h <;> cases h <;> exact ⟨rfl, _, rfl⟩
  · cases h; exact ⟨rfl, [], rfl⟩

theorem stageDecomp_keeps {D : Type} (env : Externals D) (c : StreamCall D) (f : Flow D)
    (flag : Nat) (e : Event) (h : stageDecomp env c = some f)
    (hc : c.fds.do_hash = flag ∧ ∃ rest, c.events = e :: rest) :
    f.call.fds.do_hash = flag ∧ ∃ rest, f.call.events = e :: rest := by
  obtain ⟨hflag, rest, hrest⟩ := hc
  unfold stageDecomp at h
  by_cases h1 : c.fds.stage = .FL2DEC_STAGE_DECOMP
  · rw [if_pos h1] at h
    dsimp only at h
    split at h
    · exact absurd h (by simp)
    · rename_i fds2 evh hupd
      obtain ⟨-, hdh, -⟩ := hashUpdate_frame _ _ _ _ _ _ hupd
      simp only at hdh
      have key : fds2.do_hash = flag ∧ ∃ rest2, c.events ++
          [Event.decode (streamDecode env c).res (streamDecode env c).destLen
            (streamDecode env c).srcLen] ++ evh = e :: rest2 :=
        ⟨hdh.trans hflag, _, by rw [hrest]; rfl⟩
      split_ifs at h <;> cases h <;> exact key
  · rw [if_neg h1] at h
    cases h
    exact ⟨hflag, rest, hrest⟩

theorem stageHash_keeps {D : Type} (env : Externals D) (c : StreamCall D) (f : Flow D)
    (flag : Nat) (e : Event) (h : stageHash env c = some f)
    (hc : c.fds.do_hash = flag ∧ ∃ rest, c.events = e :: rest) :
    f.call.fds.do_hash = flag ∧ ∃ rest, f.call.events = e :: rest := by
  obtain ⟨hflag, rest, hrest⟩ := hc
  unfold stageHash at h
  by_cases h1 : c.fds.stage = .FL2DEC_STAGE_HASH
  · rw [if_pos h1] at h
    split_ifs at h with h2
    · cases h; exact ⟨hflag, rest, hrest⟩
    · split at h
      · dsimp only at h
        have key : ∀ (a b : Nat), c.fds.do_hash = flag ∧
            ∃ rest2, c.events ++ [Event.compare a b] = e :: rest2 :=
          fun a b => ⟨hflag, _, by rw [hrest]; rfl⟩
        split_ifs at h <;> cases h <;> exact key _ _
      · exact absurd h (by simp)
  · rw [if_neg h1] at h
    cases h
    exact ⟨hflag, rest, hrest⟩

/-- A call entered in stage `Init` with an unread byte `p` leaves `fds->do_hash` at the
flag of `p`, and its first external call is `FLzma2Dec_Init` on the masked `p`. -/
theorem decompressStream_prop {D : Type} (env : Externals D) (fds : FL2_DStream D)
    (output : FL2_outBuffer) (input : FL2_inBuffer) (p : BYTE) (r : StreamResult D)
    (hst : fds.stage = .FL2DEC_STAGE_INIT) (hpos : input.pos < input.size)
    (hp : input.src.get? input.pos = some p)
    (h : FL2_decompressStream env fds output input = some r) :
    r.fds.do_hash = propHash p ∧
    ∃ rest, r.events =
      Event.decInit (propLzma env p) (env.FLzma2Dec_Init fds.dec (propLzma env p) none 0).1
        :: rest := by
  unfold FL2_decompressStream at h
  rw [if_pos hpos] at h
  obtain ⟨x, hx, hfds, -, -, hev⟩ := finish_call _ _ h
  rw [hfds, hev]
  refine andThen_call (fun c => c.fds.do_hash = propHash p ∧ ∃ rest, c.events =
      Event.decInit (propLzma env p) (env.FLzma2Dec_Init fds.dec (propLzma env p) none 0).1
        :: rest) _ _ ?_
    (fun c y hc hy => stageHash_keeps env c y _ _ hy hc) x hx
  intro y hy
  refine andThen_call (fun c => c.fds.do_hash = propHash p ∧ ∃ rest, c.events =
      Event.decInit (propLzma env p) (env.FLzma2Dec_Init fds.dec (propLzma env p) none 0).1
        :: rest) _ _ ?_
    (fun c z hc hz => stageDecomp_keeps env c z _ _ hz hc) y hy
  intro z hz
  exact stageInit_prop env _ p z hst hp rfl hz

/-- What `FL2_decompressDCtx` returns when `FLzma2Dec_Init` fails. -/
theorem decompressDCtx_init_error {D : Type} (env : Externals D) (dctx : D)
    (dst : List BYTE) (dstCapacity : Nat) (src : List BYTE) (srcSize : Nat) (b : BYTE)
    (hb : src.get? 0 = some b)
    (hinit : env.FL2_isError (dctxInit env dctx dst dstCapacity b).1 = true) :
    FL2_decompressDCtx env dctx dst dstCapacity src srcSize =
      some { ret := (dctxInit env dctx dst dstCapacity b).1,
             dctx := (dctxInit env dctx dst dstCapacity b).2, dst := dst } := by
  unfold FL2_decompressDCtx
  simp only [hb, hinit, if_true]

/-- What `FL2_decompressDCtx` returns when the flag is set and fewer than four bytes are
left of the `srcSize - 1` bytes after the decoder stopped. -/
theorem decompressDCtx_flag_short {D : Type} (env : Externals D) (dctx : D)
    (dst : List BYTE) (dstCapacity : Nat) (src : List BYTE) (srcSize : Nat) (b : BYTE)
    (hb : src.get? 0 = some b) (hflag : propHash b ≠ 0)
    (hinit : env.FL2_isError (dctxInit env dctx dst dstCapacity b).1 = false)
    (herr : env.FL2_isError (dctxDecode env dctx dst dstCapacity src srcSize b).res = false)
    (hmore : (dctxDecode env dctx dst dstCapacity src srcSize b).res
      ≠ env.LZMA_STATUS_NEEDS_MORE_INPUT)
    (hshort : size_sub env.w (size_sub env.w srcSize 1)
      (dctxDecode env dctx dst dstCapacity src srcSize b).srcLen < XXHASH_SIZEOF) :
    FL2_decompressDCtx env dctx dst dstCapacity src srcSize =
      some { ret := env.error_srcSize_wrong,
             dctx := (dctxDecode env dctx dst dstCapacity src srcSize b).dec,
             dst := (dctxDecode env dctx dst dstCapacity src srcSize b).dic } := by
  unfold FL2_decompressDCtx
  simp only [hb, hinit, herr, hmore, Bool.false_eq_true, if_false, hflag, ne_eq,
    not_false_eq_true, if_true, hshort]

/-- C14. With `FL2_PROP_HASH_BIT = 7` and `FL2_LZMA_PROP_MASK = 0x3F`, for every
property byte `p`: the checksum flag `p >> FL2_PROP_HASH_BIT` is `p / 128`, non-zero
exactly when bit 7 of `p` is set, and the masked byte `p & FL2_LZMA_PROP_MASK` is
`p % 64`, with bit 7 clear.  `FL2_decompressDCtx` calls `FLzma2Dec_Init` on the masked
byte (its return value when that call fails is the code of that very call), skips the
checksum when bit 7 is clear and asks for four trailing bytes when it is set;
`FL2_decompressStream` in stage `Init` makes `FLzma2Dec_Init` on the same masked byte
its first external call and leaves `fds->do_hash` at the same flag.  For `p = 0x01` the
flag is 0 and the value given to `FLzma2Dec_Init` is 1. -/
theorem FL2_property_byte_decoding {D : Type} (env : Externals D)
    (hmask : env.FL2_LZMA_PROP_MASK = 0x3F) (p : BYTE) :
    propHash p = p.val / 2 ^ FL2_PROP_HASH_BIT ∧
    (propHash p ≠ 0 ↔ p.val.testBit 7 = true) ∧
    propLzma env p = p.val % 64 ∧
    (propLzma env p).testBit 7 = false ∧
    (∀ (dctx : D) (dst : List BYTE) (dstCapacity : Nat) (src : List BYTE) (srcSize : Nat),
      src.get? 0 = some p →
      dctxInit env dctx dst dstCapacity p
        = env.FLzma2Dec_Init dctx (p.val % 64) (some dst) dstCapacity ∧
      (env.FL2_isError (env.FLzma2Dec_Init dctx (p.val % 64) (some dst) dstCapacity).1 = true →
        FL2_decompressDCtx env dctx dst dstCapacity src srcSize =
          some { ret := (env.FLzma2Dec_Init dctx (p.val % 64) (some dst) dstCapacity).1,
                 dctx := (env.FLzma2Dec_Init dctx (p.val % 64) (some dst) dstCapacity).2,
                 dst := dst }) ∧
      (env.FL2_isError (env.FLzma2Dec_Init dctx (p.val % 64) (some dst) dstCapacity).1 = false →
        env.FL2_isError (dctxDecode env dctx dst dstCapacity src srcSize p).res = false →
        (dctxDecode env dctx dst dstCapacity src srcSize p).res
          ≠ env.LZMA_STATUS_NEEDS_MORE_INPUT →
        (p.val.testBit 7 = false →
          FL2_decompressDCtx env dctx dst dstCapacity src srcSize =
            some { ret := size_sub env.w
                     (env.dicPos (dctxDecode env dctx dst dstCapacity src srcSize p).dec)
                     (env.dicPos (dctxInit env dctx dst dstCapacity p).2),
                   dctx := (dctxDecode env dctx dst dstCapacity src srcSize p).dec,
                   dst := (dctxDecode env dctx dst dstCapacity src srcSize p).dic }) ∧
        (p.val.testBit 7 = true →
          size_sub env.w (size_sub env.w srcSize 1)
            (dctxDecode env dctx dst dstCapacity src srcSize p).srcLen < XXHASH_SIZEOF →
          FL2_decompressDCtx env dctx dst dstCapacity src srcSize =
            some { ret := env.error_srcSize_wrong,
                   dctx := (dctxDecode env dctx dst dstCapacity src srcSize p).dec,
                   dst := (dctxDecode env dctx dst dstCapacity src srcSize p).dic }))) ∧
    (∀ (fds : FL2_DStream D) (output : FL2_outBuffer) (input : FL2_inBuffer)
        (r : StreamResult D),
      fds.stage = .FL2DEC_STAGE_INIT → input.pos < input.size →
      input.src.get? input.pos = some p →
      FL2_decompressStream env fds output input = some r →
      r.fds.do_hash = p.val / 2 ^ FL2_PROP_HASH_BIT ∧
      ∃ rest, r.events =
        Event.decInit (p.val % 64) (env.FLzma2Dec_Init fds.dec (p.val % 64) none 0).1 :: rest) ∧
    propHash (0x01 : BYTE) = 0 ∧ propLzma env (0x01 : BYTE) = 1 := by
  have hflag : propHash p = p.val / 2 ^ FL2_PROP_HASH_BIT := propHash_eq p
  have hlz : propLzma env p = p.val % 64 := propLzma_eq env hmask p
  have hbit : propHash p ≠ 0 ↔ p.val.testBit 7 = true := by
    rw [propHash_eq, Nat.testBit_to_div_mod]
    have := p.isLt
    simp only [decide_eq_true_eq]
    omega
  refine ⟨hflag, hbit, hlz, ?_, ?_, ?_, ?_, ?_⟩
  · rw [hlz]
    exact Nat.testBit_lt_two_pow (by omega)
  · intro dctx dst dstCapacity src srcSize hb
    have hinit : dctxInit env dctx dst dstCapacity p
        = env.FLzma2Dec_Init dctx (p.val % 64) (some dst) dstCapacity := by
      unfold dctxInit
      rw [hlz]
    refine ⟨hinit, ?_, ?_⟩
    · intro he
      rw [← hinit] at he ⊢
      exact decompressDCtx_init_error env dctx dst dstCapacity src srcSize p hb he
    · intro he herr hmore
      rw [← hinit] at he
      refine ⟨?_, ?_⟩
      · intro h7
        have h0 : propHash p = 0 := by
          by_contra hne
          rw [hbit.1 hne] at h7
          exact absurd h7 (by simp)
        exact decompressDCtx_other_status env dctx dst dstCapacity src srcSize p hb h0 he
          herr hmore
      · intro h7 hshort
        exact decompressDCtx_flag_short env dctx dst dstCapacity src srcSize p hb (hbit.2 h7)
          he herr hmore hshort
  · intro fds output input r hst hpos hp h
    have := decompressStream_prop env fds output input p r hst hpos hp h
    rw [hflag, hlz] at this
    exact this
  · rfl
  · rw [propLzma_eq env hmask]
    rfl

/-- C14 at an instance: the literal decoder and the property byte `0x81`. -/
theorem FL2_property_byte_decoding_witness :
    litEnv.FL2_LZMA_PROP_MASK = 0x3F ∧ propHash (0x81 : BYTE) = 1 ∧
    propLzma litEnv (0x81 : BYTE) = 1 :=
  ⟨rfl,
   (FL2_property_byte_decoding litEnv rfl 0x81).1,
   (FL2_property_byte_decoding litEnv rfl 0x81).2.2.1⟩

/-- C20. With `srcSize = 0` the subtraction `srcSize - 1` of `FL2_decompressDCtx` wraps:
the length handed to `FLzma2Dec_DecodeToDic` is `2 ^ 64 - 1`, and so is the end position
the trailing-byte count is taken from.  On the memory `81 41 42 00 00 00 08 41` declared
with `srcSize = 0` the decoder consumes three bytes, the count `2 ^ 64 - 1 - 3` passes
the test against the checksum width, and the call returns the length 2, having read
all eight bytes. -/
theorem FL2_decompressDCtx_srcSize_zero_wraps :
    size_sub litEnv.w 0 1 = 2 ^ 64 - 1 ∧
    dctxDecode litEnv litDCtx [0, 0, 0, 0] 4 litSum 0 0x81 =
      litEnv.FLzma2Dec_DecodeToDic (dctxInit litEnv litDCtx [0, 0, 0, 0] 4 0x81).2 [0, 0, 0, 0] 4
        (litSum.drop 1) (2 ^ 64 - 1) .LZMA_FINISH_END ∧
    (dctxDecode litEnv litDCtx [0, 0, 0, 0] 4 litSum 0 0x81).srcLen = 3 ∧
    size_sub litEnv.w (size_sub litEnv.w 0 1) 3 = 2 ^ 64 - 4 ∧
    ¬ (2 ^ 64 - 1 ≤ 0) ∧
    FL2_decompressDCtx litEnv litDCtx [0, 0, 0, 0] 4 litSum 0 = some litOneShot ∧
    litOneShot.ret = 2 :=
  ⟨rfl, rfl, rfl, rfl, by decide, rfl, rfl⟩

/-! ## What the multithreaded functions do on every input -/

/-- The only value `FL2_decompressStreamMt` ever returns is an error code of
`FL2_decompressBlocksMt`. -/
theorem decompressStreamMt_ret {D : Type} (env : MtExternals D) (fuel : Nat)
    (fds : FL2_DStreamMt D) (output : FL2_outBuffer) (input : FL2_inBuffer)
    (r : StreamMtResult D) (e : Nat)
    (h : FL2_decompressStreamMt env fuel fds output input = some r) (he : r.ret = some e) :
    env.FL2_isError e = true ∧ ∃ s, e = (env.FL2_decompressBlocksMt s).1 := by
  unfold FL2_decompressStreamMt at h
  dsimp only at h
  generalize (if fds.decmt.isWriting ≠ 0 then FL2_writeStreamBlocks fds output
    else (fds, output)) = w at h
  by_cases h1 : w.1.decmt.isWriting = 0
  · rw [if_pos h1] at h
    cases hl : FL2_LoadInputMt env fuel w.1.decmt input with
    | none => rw [hl] at h; exact absurd h (by simp)
    | some l =>
      rw [hl] at h
      dsimp only at h
      split_ifs at h with h2 h3
      · cases h
        cases he
        exact ⟨h3, _, rfl⟩
      · cases h; cases he
      · cases h; cases he
  · rw [if_neg h1] at h
    cases h; cases he

/-- The loop of `FL2_decompressBlockMt` writes neither the local decoder nor the
coordinator, so no slot buffer either. -/
theorem blockLoop_frame {D : Type} (env : MtExternals D) (ti : ThreadInfo) (dec : D) :
    ∀ (fuel : Nat) (node : Option Nat) (inPos : Nat) (fds : FL2_DStreamMt D) (steps : List D)
      (r : BlockMtResult D),
      blockLoop env ti dec fuel node inPos fds steps = some r →
      r.dec = dec ∧ r.fds.decmt = fds.decmt := by
  intro fuel
  induction fuel with
  | zero =>
    intro node inPos fds steps r h
    unfold blockLoop at h
    split at h
    · exact absurd h (by simp)
    · split at h
      · exact absurd h (by simp)
      · dsimp only at h
        split_ifs at h <;> (cases h; exact ⟨rfl, rfl⟩)
  | succ n ih =>
    intro node inPos fds steps r h
    unfold blockLoop at h
    split at h
    · exact absurd h (by simp)
    · split at h
      · exact absurd h (by simp)
      · dsimp only at h
        split_ifs at h <;>
          first
          | (cases h; exact ⟨rfl, rfl⟩)
          | (have hr := ih _ _ _ _ _ h; exact hr)

/-- On every input, `FL2_decompressBlockMt` leaves the local decoder as
`FLzma2Dec_Init` made it and leaves the coordinator, with the buffer of every slot,
as it was. -/
theorem decompressBlockMt_frame {D : Type} (env : MtExternals D) (fuel : Nat) (uninit : D)
    (fds : FL2_DStreamMt D) (thread : Nat) (r : BlockMtResult D)
    (h : FL2_decompressBlockMt env fuel uninit fds thread = some r) :
    r.dec = (env.FLzma2Dec_Init uninit fds.decmt.prop (fds.decmt.threads thread).outBuf
      (fds.decmt.threads thread).bufSize).2 ∧
    r.fds.decmt = fds.decmt := by
  unfold FL2_decompressBlockMt at h
  dsimp only at h
  split_ifs at h
  · cases h; exact ⟨rfl, rfl⟩
  · exact blockLoop_frame env _ _ _ _ _ _ _ r h

/-! ## The multithreaded coordinator -/

/-- C15. `FL2_writeStreamBlocks` copies nothing: it returns the stream and the output
cursor as it got them.  On a coordinator whose completed slot 0 holds the decoded
bytes `A` `B`, with the read cursor at (0, 0) and four bytes of room in the output,
the output memory and `output->pos` are the same after the call, and so is the read
cursor; a call of `FL2_decompressStreamMt` in that state ends without a return value
and leaves the output cursor untouched as well. -/
theorem FL2_writeStreamBlocks_copies_nothing :
    (∀ (D : Type) (fds : FL2_DStreamMt D) (output : FL2_outBuffer),
      FL2_writeStreamBlocks fds output = (fds, output)) ∧
    (litDecoded.threads 0).outBuf = some [0x41, 0x42] ∧
    (litDecoded.threads 0).bufSize = 2 ∧
    litDecoded.numThreads = 1 ∧ litDecoded.srcThread = 0 ∧ litDecoded.srcPos = 0 ∧
    (FL2_writeStreamBlocks (litStreamMt litDecoded) litOut4).2 = litOut4 ∧
    (FL2_writeStreamBlocks (litStreamMt litDecoded) litOut4).2.pos = 0 ∧
    (FL2_writeStreamBlocks (litStreamMt litDecoded) litOut4).2.dst = [0, 0, 0, 0] ∧
    (FL2_writeStreamBlocks (litStreamMt litDecoded) litOut4).1.decmt.srcThread = 0 ∧
    (FL2_writeStreamBlocks (litStreamMt litDecoded) litOut4).1.decmt.srcPos = 0 ∧
    (∃ r, FL2_decompressStreamMt litMt 8 (litStreamMt litDecoded) litOut4 litInOne = some r ∧
      r.ret = none ∧ r.output = litOut4 ∧ r.input = litInOne) :=
  ⟨fun _ _ _ => rfl, rfl, rfl, rfl, rfl, rfl, rfl, rfl, rfl, rfl, rfl, _, rfl, rfl, rfl, rfl⟩

/-- C16. `FL2_decompressStreamMt` returns no failure code for a failure met in
`FL2_LoadInputMt`: the function has no `return` statement apart from the one for
`FL2_decompressBlocksMt`.  With the node 0 full and one more byte of input,
(a) on the bytes `41 42 FF 43` the parser classifies the chunk at the parsed offset as
`CHUNK_ERROR` and `FL2_LoadInputMt` returns it; (b) on `41 42 00 43` with a failing
`malloc`, `FL2_ParseMt` returns `CHUNK_NO_MEMORY`; (c) with a failing
`FLzma2Dec_CreateInbufNode`, `FL2_LoadInputMt` returns `FL2_ERROR(memory_allocation)`
as an `int`; in all three cases the enclosing `FL2_decompressStreamMt` ends without a
return value. -/
theorem FL2_decompressStreamMt_drops_failures :
    (∃ l, FL2_LoadInputMt litMt 8 (litLoading [0x41, 0x42, 0xFF, 0x43]) litInOne = some l ∧
      l.ret = litMt.CHUNK_ERROR) ∧
    (∃ r, FL2_decompressStreamMt litMt 8 (litStreamMt (litLoading [0x41, 0x42, 0xFF, 0x43]))
        litOut4 litInOne = some r ∧ r.ret = none) ∧
    (∃ l, FL2_LoadInputMt litMtNoBuf 8 (litLoading [0x41, 0x42, 0x00, 0x43]) litInOne = some l ∧
      l.ret = litMtNoBuf.CHUNK_NO_MEMORY) ∧
    (∃ r, FL2_decompressStreamMt litMtNoBuf 8 (litStreamMt (litLoading [0x41, 0x42, 0x00, 0x43]))
        litOut4 litInOne = some r ∧ r.ret = none) ∧
    (∃ l, FL2_LoadInputMt litMtNoNode 8 (litLoading [0x41, 0x42, 0x43, 0x44]) litInOne = some l ∧
      l.ret = litMtNoNode.intOfSize litMtNoNode.error_memory_allocation ∧ l.ret = -9) ∧
    (∃ r, FL2_decompressStreamMt litMtNoNode 8 (litStreamMt (litLoading [0x41, 0x42, 0x43, 0x44]))
        litOut4 litInOne = some r ∧ r.ret = none) :=
  ⟨⟨_, rfl, rfl⟩, ⟨_, rfl, rfl⟩, ⟨_, rfl, rfl⟩, ⟨_, rfl, rfl⟩, ⟨_, rfl, rfl, rfl⟩, ⟨_, rfl, rfl⟩⟩

/-- C17. `FL2_AllocThread` increments `numThreads` without comparing it with
`maxThreads`: on the state built by `FL2_Lzma2DecMt_Create(1)`, where
`numThreads = maxThreads = 1`, one call of `FL2_AllocThread` with a successful `malloc`
returns 0 and leaves `numThreads = 2 > 1 = maxThreads`, the buffer stored in the slot
of index 1, behind the one-slot array; `FL2_ParseMt` reaches the same with a block
that ends in a final chunk; and from `FL2_Lzma2DecMt_Create(2)` two calls lead to
`numThreads = 3`. -/
theorem FL2_AllocThread_exceeds_maxThreads :
    (∃ s, FL2_Lzma2DecMt_Create litMt (some litFreshMt) 1 = some s ∧
      s.numThreads = 1 ∧ s.maxThreads = 1 ∧
      (FL2_AllocThread litMt s).1 = 0 ∧
      (FL2_AllocThread litMt s).2.numThreads = 2 ∧
      (FL2_AllocThread litMt s).2.maxThreads = 1 ∧
      ((FL2_AllocThread litMt s).2.threads 1).outBuf = some [0, 0, 0] ∧
      ¬ ((FL2_AllocThread litMt s).2.numThreads ≤ (FL2_AllocThread litMt s).2.maxThreads)) ∧
    (∃ s, FL2_Lzma2DecMt_Create litMt (some litFreshMt) 2 = some s ∧
      s.numThreads = 1 ∧ s.maxThreads = 2 ∧
      (FL2_AllocThread litMt (FL2_AllocThread litMt s).2).2.numThreads = 3 ∧
      (FL2_AllocThread litMt (FL2_AllocThread litMt s).2).2.maxThreads = 2) ∧
    (∃ r, FL2_ParseMt litMt 8 litAtBudget = some r ∧
      litAtBudget.numThreads = 1 ∧ litAtBudget.maxThreads = 1 ∧
      r.1 = litMt.CHUNK_FINAL ∧ r.2.numThreads = 2 ∧ r.2.maxThreads = 1) :=
  ⟨⟨_, rfl, rfl, rfl, rfl, rfl, rfl, rfl, by decide⟩, ⟨_, rfl, rfl, rfl, rfl, rfl⟩,
   ⟨_, rfl, rfl, rfl, rfl, rfl, rfl⟩⟩

/-- C18. `FL2_AllocThread` never writes `bufSize`: for every coordinator and every slot
the recorded capacity is the same before and after the call.  On a coordinator whose
parser resolved the block of slot 1 with unpacked size 2, the call succeeds and
allocates two bytes, the recorded capacity of the slot stays 0, and
`FL2_decompressBlockMt` on that slot, decoding with the capacity 0, fails on the first
literal. -/
theorem FL2_AllocThread_leaves_bufSize :
    (∀ (D : Type) (env : MtExternals D) (decmt : Lzma2DecMt) (i : Nat),
      ((FL2_AllocThread env decmt).2.threads i).bufSize = (decmt.threads i).bufSize) ∧
    (litParsed.threads 1).inBlock.unpackSize = 2 ∧
    (FL2_AllocThread litMt litParsed).1 = 0 ∧
    (FL2_AllocThread litMt litParsed).2.numThreads = 2 ∧
    ((FL2_AllocThread litMt litParsed).2.threads 1).outBuf = some [0, 0] ∧
    ((FL2_AllocThread litMt litParsed).2.threads 1).bufSize = 0 ∧
    (∃ r, FL2_decompressBlockMt litMt 8 litDCtx
        (litStreamMt (FL2_AllocThread litMt litParsed).2) 1 = some r ∧
      r.ret = some (2 ^ 64 - 3) ∧ litMt.FL2_isError (2 ^ 64 - 3) = true) := by
  refine ⟨?_, rfl, rfl, rfl, rfl, rfl, ⟨_, rfl, rfl, rfl⟩⟩
  intro D env decmt i
  unfold FL2_AllocThread
  dsimp only
  split <;> simp only [Lzma2DecMt.setThread] <;> split_ifs with h <;> simp [h]

/-- C19. `FL2_decompressBlockMt` initialises the local decoder `dec` and then decodes
with `fds->dec`.  On a slot holding the block `A` `B` end marker and a three-byte
buffer, in a stream whose `fds->dec` stands at dictionary position 1: the one call of
`FLzma2Dec_DecodeToDic` is made on the state of `fds->dec`, the local decoder is left
as `FLzma2Dec_Init` made it (position 0), `fds->dec` has moved to position 3 with the
end marker read, the bytes `A` `B` are in the dictionary of `fds->dec`, the buffer of
the slot is as before, and the function ends without a return value. -/
theorem FL2_decompressBlockMt_decodes_with_stream_decoder :
    ∃ r, FL2_decompressBlockMt litMt 8 litDCtx litReady 0 = some r ∧
      litReady.fds.dec = { dicPos := 1, finished := false } ∧
      (litMt.FLzma2Dec_Init litDCtx litReady.decmt.prop (litReady.decmt.threads 0).outBuf
        (litReady.decmt.threads 0).bufSize).2 = { dicPos := 0, finished := false } ∧
      r.steps = [{ dicPos := 1, finished := false }] ∧
      r.dec = { dicPos := 0, finished := false } ∧
      r.fds.fds.dec = { dicPos := 3, finished := true } ∧
      r.fds.fds.dec ≠ litReady.fds.dec ∧
      r.fds.dic = [0, 0x41, 0x42, 0] ∧
      (r.fds.decmt.threads 0).outBuf = some [0, 0, 0] ∧
      r.ret = none :=
  ⟨_, rfl, rfl, rfl, rfl, rfl, rfl, by decide, rfl, rfl, rfl⟩

end FL2
